import Mathlib

/-!
Verification of the abstract convolution subsystem (shape arithmetic, padding
normalization, operator construction, gradient consistency) and of the native
per-axis cumulative-op fallback, as a shallow embedding in Lean 4.

Python integers are modelled as `ℤ`; Python `//` (floor division) as
`Int.fdiv`; Python `%` (sign of the divisor) as `Int.fmod`; Python `/`
(true division) as division in `ℚ`; `None` as `Option.none`; `raise` as
`Except.error`.
-/

deriving instance DecidableEq for Except

namespace PyTensorConv

/-- Per-axis border mode as accepted by the single-axis shape functions:
the strings `"valid"`, `"full"`, `"half"`, a plain integer, or an
asymmetric pad pair. -/
inductive BorderMode1 where
  | valid
  | full
  | half
  | int (v : ℤ)
  | pair (l r : ℤ)
deriving DecidableEq, Repr

/-- Pad resolution shared by the single-axis shape functions
(abstract_conv.py lines 136-148 and 407-419): `half` gives
`dil_kernel // 2` on both sides, `full` gives `dil_kernel - 1` on both
sides, `valid` gives `0`; an integer `v` gives `(v, v)` and a pair is
used as given, with negative explicit padding raising
`ValueError("border_mode must be >= 0")`. -/
def resolvePad1 (bm : BorderMode1) (dil_kernel_shape : ℤ) : Except String (ℤ × ℤ) :=
  match bm with
  | .half => .ok (dil_kernel_shape.fdiv 2, dil_kernel_shape.fdiv 2)
  | .full => .ok (dil_kernel_shape - 1, dil_kernel_shape - 1)
  | .valid => .ok (0, 0)
  | .int v => if v < 0 then .error "border_mode must be >= 0" else .ok (v, v)
  | .pair l r => if l < 0 ∨ r < 0 then .error "border_mode must be >= 0" else .ok (l, r)

/-- Embedding of `get_conv_shape_1axis` (abstract_conv.py lines 106-161):
single-axis forward output size.  Any `None` input yields `None`; otherwise
the implicit dilated kernel shape is `(kernel - 1) * dilation + 1`, the pad
pair is resolved from the border mode, and the result is
`(image - dil_kernel + pad_l + pad_r) // subsample + 1`, where the floor
division is only performed when `subsample != 1` (matching the source's
smallest-graph construction). -/
def get_conv_shape_1axis (image_shape kernel_shape : Option ℤ)
    (border_mode : Option BorderMode1) (subsample dilation : Option ℤ) :
    Except String (Option ℤ) :=
  match image_shape, kernel_shape, border_mode, subsample, dilation with
  | some image, some kernel, some bm, some sub, some dil =>
    let dil_kernel_shape := (kernel - 1) * dil + 1
    match resolvePad1 bm dil_kernel_shape with
    | .error e => .error e
    | .ok (pad_l, pad_r) =>
      let out_shp := image - dil_kernel_shape + pad_l + pad_r
      let out_shp := if sub ≠ 1 then out_shp.fdiv sub else out_shp
      .ok (some (out_shp + 1))
  | _, _, _, _, _ => .ok none

/-- Embedding of the pre-division kernel size computed by
`get_conv_gradweights_shape_1axis` (abstract_conv.py lines 279-291):
`top - image` for `"full"`, `image - top` for `"valid"`, and
`image + pad_l + pad_r - top` for explicit padding (negative padding
raises).  The `"half"` case is unreachable here because the caller returns
`None` for `"half"` before resolving pads. -/
def gradweights_base_diff (bm : BorderMode1) (image top : ℤ) : Except String ℤ :=
  match bm with
  | .full => .ok (top - image)
  | .valid => .ok (image - top)
  | .half => .ok 0
  | .int v => if v < 0 then .error "border_mode must be >= 0" else .ok (image + v + v - top)
  | .pair l r => if l < 0 ∨ r < 0 then .error "border_mode must be >= 0" else .ok (image + l + r - top)

/-- Final step of `get_conv_gradweights_shape_1axis` (abstract_conv.py lines
293-296): when `dilation > 1` the intermediate size is divided by the
dilation using Python true division (producing a float, modelled as `ℚ`),
then `1` is added. -/
def gradweights_finish (dilation : ℤ) (kernel_shape : ℚ) : ℚ :=
  (if 1 < dilation then kernel_shape / (dilation : ℚ) else kernel_shape) + 1

/-- Embedding of `get_conv_gradweights_shape_1axis` (abstract_conv.py lines
242-296): single-axis gradient-wrt-weights size.  Any `None` input yields
`None`; `subsample != 1` or border mode `"half"` yields `None`; otherwise
the base difference is computed per border mode and finished by the
(true-division) dilation adjustment plus one. -/
def get_conv_gradweights_shape_1axis (image_shape top_shape : Option ℤ)
    (border_mode : Option BorderMode1) (subsample dilation : Option ℤ) :
    Except String (Option ℚ) :=
  match image_shape, top_shape, border_mode, subsample, dilation with
  | some image, some top, some bm, some sub, some dil =>
    if sub ≠ 1 ∨ bm = .half then .ok none
    else
      match gradweights_base_diff bm image top with
      | .error e => .error e
      | .ok kernel_shape => .ok (some (gradweights_finish dil (kernel_shape : ℚ)))
  | _, _, _, _, _ => .ok none

/-- Validity of an optional per-axis border mode: explicit integer or pair
padding must be non-negative (the data model requires non-negative pad
pairs). -/
def explicitPadsNonneg : Option BorderMode1 → Bool
  | some (.int v) => decide (0 ≤ v)
  | some (.pair l r) => decide (0 ≤ l) && decide (0 ≤ r)
  | _ => true

theorem get_conv_shape_1axis_eval {i k s d pl pr : ℤ} {bm : BorderMode1}
    (hpad : resolvePad1 bm ((k - 1) * d + 1) = .ok (pl, pr)) (hs : 1 ≤ s) :
    get_conv_shape_1axis (some i) (some k) (some bm) (some s) (some d) =
      .ok (some ((i + pl + pr - ((k - 1) * d + 1)).fdiv s + 1)) := by
  simp only [get_conv_shape_1axis, hpad]
  have harg : i - ((k - 1) * d + 1) + pl + pr = i + pl + pr - ((k - 1) * d + 1) := by
    ring
  rw [harg]
  by_cases h1 : s = 1
  · subst h1
    simp [Int.fdiv_one]
  · simp [h1]

/-- C2: for every axis, the single-axis forward output size function returns
`None` whenever any of its inputs is `None`, and otherwise (for positive
subsampling, with the pad pair resolved as half → dil_kernel // 2 both
sides, full → dil_kernel - 1 both sides, valid → 0, integer v → (v, v),
pair → as given) it returns
`(image + pad_l + pad_r - dil_kernel) // subsample + 1` where
`dil_kernel = (kernel - 1) * dilation + 1`. -/
theorem get_conv_shape_1axis_correct
    (image kernel : Option ℤ) (border : Option BorderMode1) (sub dil : Option ℤ) :
    ((image = none ∨ kernel = none ∨ border = none ∨ sub = none ∨ dil = none) →
      get_conv_shape_1axis image kernel border sub dil = .ok none) ∧
    (∀ i k bm s d pl pr, image = some i → kernel = some k → border = some bm →
      sub = some s → dil = some d → 1 ≤ s →
      resolvePad1 bm ((k - 1) * d + 1) = .ok (pl, pr) →
      get_conv_shape_1axis image kernel border sub dil =
        .ok (some ((i + pl + pr - ((k - 1) * d + 1)).fdiv s + 1))) := by
  constructor
  · intro h
    rcases image with _ | i <;> rcases kernel with _ | k <;>
      rcases border with _ | bm <;> rcases sub with _ | s <;>
      rcases dil with _ | d <;> first | rfl | simp at h
  · rintro i k bm s d pl pr rfl rfl rfl rfl rfl hs hpad
    exact get_conv_shape_1axis_eval hpad hs

/-- Witness for C2: a `None` input propagates, and for image 10, kernel 3,
border `"half"`, subsample 2, dilation 1 the output size is
`(10 + 1 + 1 - 3) // 2 + 1 = 5`. -/
theorem get_conv_shape_1axis_correct_witness :
    get_conv_shape_1axis none (some 3) (some .valid) (some 1) (some 1) = .ok none ∧
    get_conv_shape_1axis (some 10) (some 3) (some .half) (some 2) (some 1) =
      .ok (some 5) := by
  constructor
  · exact (get_conv_shape_1axis_correct none (some 3) (some .valid) (some 1)
      (some 1)).1 (Or.inl rfl)
  · have h := (get_conv_shape_1axis_correct (some 10) (some 3) (some .half)
      (some 2) (some 1)).2 10 3 .half 2 1 1 1 rfl rfl rfl rfl rfl (by decide)
      (by decide)
    rw [h]
    decide

/-- C5: the single-axis gradient-wrt-weights shape function returns a known
(non-`None`) value exactly when all of its inputs are non-`None`,
`subsample == 1`, and the border mode is not `"half"` (given that explicit
padding is non-negative, as the data model requires). -/
theorem get_conv_gradweights_shape_1axis_known_iff
    (image top : Option ℤ) (border : Option BorderMode1) (sub dil : Option ℤ)
    (hpad : explicitPadsNonneg border = true) :
    (∃ q, get_conv_gradweights_shape_1axis image top border sub dil =
        .ok (some q)) ↔
    (image ≠ none ∧ top ≠ none ∧ border ≠ none ∧ dil ≠ none ∧
      sub = some 1 ∧ border ≠ some .half) := by
  rcases image with _ | i <;> rcases top with _ | t <;>
    rcases border with _ | bm <;> rcases sub with _ | s <;> rcases dil with _ | d <;>
    try simp [get_conv_gradweights_shape_1axis]
  by_cases hs : s = 1
  · subst hs
    rcases bm with _ | _ | _ | v | ⟨l, r⟩
    · simp [get_conv_gradweights_shape_1axis, gradweights_base_diff]
    · simp [get_conv_gradweights_shape_1axis, gradweights_base_diff]
    · simp [get_conv_gradweights_shape_1axis]
    · have hv : ¬ v < 0 := by
        simp only [explicitPadsNonneg, decide_eq_true_eq] at hpad
        omega
      simp [get_conv_gradweights_shape_1axis, gradweights_base_diff, hv]
    · have hl : ¬ (l < 0 ∨ r < 0) := by
        simp only [explicitPadsNonneg, Bool.and_eq_true, decide_eq_true_eq] at hpad
        omega
      simp [get_conv_gradweights_shape_1axis, gradweights_base_diff, hl]
  · simp [get_conv_gradweights_shape_1axis, hs]

/-- Witness for C5: with all inputs known, subsample 1 and border `"valid"`
the result is known; forward direction instantiated at image 5, top 3. -/
theorem get_conv_gradweights_shape_1axis_known_iff_witness :
    ∃ q, get_conv_gradweights_shape_1axis (some 5) (some 3) (some .valid)
        (some 1) (some 1) = .ok (some q) := by
  exact (get_conv_gradweights_shape_1axis_known_iff (some 5) (some 3)
    (some .valid) (some 1) (some 1) (by decide)).2
    (by refine ⟨by simp, by simp, by simp, by simp, rfl, by simp⟩)

/-- C9 counterexample: at image 6, top 3, border `"valid"`, subsample 1,
dilation 2 the function returns `(6 - 3) / 2 + 1 = 5/2` via Python true
division — a value that is not a (non-negative) integer, refuting the claim
that every such return value is a non-negative integer. -/
theorem gradweights_shape_value_not_integer :
    get_conv_gradweights_shape_1axis (some 6) (some 3) (some .valid) (some 1)
        (some 2) = .ok (some ((5 : ℚ) / 2)) ∧
    ¬ ∃ n : ℕ, ((5 : ℚ) / 2) = (n : ℚ) := by
  constructor
  · have hg : ¬ ((1 : ℤ) ≠ 1 ∨ BorderMode1.valid = BorderMode1.half) := by decide
    simp only [get_conv_gradweights_shape_1axis, hg, if_false,
      gradweights_base_diff, gradweights_finish]
    norm_num
  · rintro ⟨n, hn⟩
    rw [div_eq_iff (by norm_num : (2 : ℚ) ≠ 0)] at hn
    have h3 : (5 : ℕ) = n * 2 := by exact_mod_cast hn
    omega

/-- C9 amended: for non-`None` integer inputs with subsample 1 and a border
mode that is `"valid"`, `"full"`, a non-negative integer or a non-negative
pair, the returned value is a non-negative integer provided the base
difference (image − top for `"valid"`, top − image for `"full"`,
image + pad_l + pad_r − top for explicit padding) is non-negative and
divisible by the dilation. -/
theorem gradweights_shape_nonneg_integer
    (image top : ℤ) (bm : BorderMode1) (d : ℤ) (diff : ℤ)
    (hbm : bm ≠ .half) (hd : 1 ≤ d)
    (hdiff : gradweights_base_diff bm image top = .ok diff)
    (hnn : 0 ≤ diff) (hdvd : d ∣ diff) :
    ∃ n : ℕ, get_conv_gradweights_shape_1axis (some image) (some top) (some bm)
        (some 1) (some d) = .ok (some (n : ℚ)) := by
  obtain ⟨c, rfl⟩ := hdvd
  have hc : 0 ≤ c := by
    by_contra hneg
    push_neg at hneg
    have : d * c < 0 := mul_neg_of_pos_of_neg (by omega) hneg
    omega
  refine ⟨(c + 1).toNat, ?_⟩
  have hguard : ¬ ((1 : ℤ) ≠ 1 ∨ bm = .half) := by simp [hbm]
  simp only [get_conv_gradweights_shape_1axis, hguard, if_false, hdiff,
    gradweights_finish]
  have hcast : ((c + 1).toNat : ℚ) = ((c + 1 : ℤ) : ℚ) := by
    exact_mod_cast congrArg (fun z : ℤ => (z : ℚ)) (Int.toNat_of_nonneg (by omega))
  by_cases h1 : 1 < d
  · rw [if_pos h1]
    have hd0 : (d : ℚ) ≠ 0 := by
      exact_mod_cast (by omega : d ≠ 0)
    have hdivq : ((d * c : ℤ) : ℚ) / (d : ℚ) = (c : ℚ) := by
      push_cast
      field_simp
    rw [hdivq, hcast]
    push_cast
    ring_nf
  · rw [if_neg h1]
    have hd1 : d = 1 := by omega
    subst hd1
    rw [hcast]
    push_cast
    ring_nf

/-- Witness for the amended C9: image 7, top 3, `"valid"`, dilation 2 —
the base difference 4 is non-negative and divisible by 2, and the result
is the non-negative integer 3. -/
theorem gradweights_shape_nonneg_integer_witness :
    ∃ n : ℕ, get_conv_gradweights_shape_1axis (some 7) (some 3) (some .valid)
        (some 1) (some 2) = .ok (some (n : ℚ)) := by
  exact gradweights_shape_nonneg_integer 7 3 .valid 2 4 (by simp)
    (by norm_num) (by norm_num [gradweights_base_diff]) (by norm_num)
    (by norm_num)

/-- One entry of a per-axis border-mode tuple: a symmetric integer or an
asymmetric pair. -/
inductive AxisMode where
  | int (v : ℤ)
  | pair (l r : ℤ)
deriving DecidableEq, Repr

/-- Operator-level border mode as accepted by `BaseAbstractConv.__init__`:
one of the strings `"valid"`, `"full"`, `"half"`, a plain integer, or a
tuple of per-axis entries. -/
inductive BorderMode where
  | valid
  | full
  | half
  | int (v : ℤ)
  | tuple (ms : List AxisMode)
deriving DecidableEq, Repr

/-- Validation and collapse of one border-mode tuple entry
(abstract_conv.py lines 2168-2189): an integer must be non-negative; a
pair must have non-negative members, raises `NotImplementedError` unless
`convdim == 2`, and collapses `(a, a)` to the scalar `a`. -/
def validate_axis_mode (convdim : ℕ) (m : AxisMode) : Except String AxisMode :=
  match m with
  | .int v =>
    if v < 0 then .error "invalid border mode: the tuple can only contain integers or pairs of integers"
    else .ok (.int v)
  | .pair a b =>
    if a < 0 ∨ b < 0 then .error "invalid border mode: the tuple can only contain integers or pairs of integers"
    else if convdim ≠ 2 then .error "Asymmetric padding not implemented for this dimensionality"
    else if a = b then .ok (.int a) else .ok (.pair a b)

/-- Entrywise validation of a border-mode tuple (the loop of
abstract_conv.py lines 2167-2190). -/
def validate_axis_modes (convdim : ℕ) : List AxisMode → Except String (List AxisMode)
  | [] => .ok []
  | m :: ms =>
    match validate_axis_mode convdim m with
    | .error e => .error e
    | .ok m' =>
      match validate_axis_modes convdim ms with
      | .error e => .error e
      | .ok ms' => .ok (m' :: ms')

/-- Decides whether one normalized tuple entry is a zero pad (the final
check `mode == (0, 0) or mode == 0` of abstract_conv.py line 2198). -/
def axis_mode_is_zero (m : AxisMode) : Bool :=
  decide (m = .int 0) || decide (m = .pair 0 0)

/-- Final zero-pad collapse performed by `BaseAbstractConv.__init__`
(abstract_conv.py lines 2197-2200): a tuple whose every entry is `0` or
`(0, 0)` becomes the string `"valid"`; anything else is unchanged. -/
def finalize_border_mode (bm : BorderMode) : BorderMode :=
  match bm with
  | .tuple ms => if ms.all axis_mode_is_zero then .valid else .tuple ms
  | other => other

/-- Border-mode normalization performed by `BaseAbstractConv.__init__`
(abstract_conv.py lines 2154-2200): a negative integer raises; a
non-negative integer becomes a tuple of `convdim` copies; a tuple must
have length `convdim` and is validated entrywise (collapsing symmetric
pairs); strings other than `"valid"`, `"full"`, `"half"` are invalid (the
embedding's string values are exactly these three); finally a tuple whose
every entry is `0` or `(0, 0)` becomes the string `"valid"`. -/
def normalize_border_mode (convdim : ℕ) (bm : BorderMode) : Except String BorderMode :=
  match bm with
  | .int v =>
    if v < 0 then .error "invalid border_mode, which must be a non-negative integer"
    else .ok (finalize_border_mode (.tuple (List.replicate convdim (.int v))))
  | .tuple ms =>
    if ms.length ≠ convdim then .error "invalid border_mode, which must be a tuple of length convdim"
    else
      match validate_axis_modes convdim ms with
      | .error e => .error e
      | .ok ms' => .ok (finalize_border_mode (.tuple ms'))
  | .valid => .ok (finalize_border_mode .valid)
  | .full => .ok (finalize_border_mode .full)
  | .half => .ok (finalize_border_mode .half)

/-- Parameter block stored on every convolution operator instance, as set
up by `BaseAbstractConv.__init__` (abstract_conv.py lines 2133-2241). -/
structure ConvParams where
  convdim : ℕ
  border_mode : BorderMode
  subsample : List ℤ
  filter_flip : Bool
  imshp : List (Option ℤ)
  kshp : List (Option ℤ)
  filter_dilation : List ℤ
  num_groups : ℤ
  unshared : Bool
deriving DecidableEq, Repr

/-- Embedding of `BaseAbstractConv.__init__` (abstract_conv.py lines
2133-2241): validates the convolution dimensionality, defaults and
normalizes the border mode, defaults `imshp`/`kshp`, checks
`subsample`/`filter_dilation` lengths, requires `num_groups >= 1` and
rejects unshared convolution outside 2D.  Note that no divisibility of
channel counts by `num_groups` is checked here. -/
def baseAbstractConv_init (convdim : ℕ) (imshp kshp : Option (List (Option ℤ)))
    (border_mode : BorderMode) (subsample : Option (List ℤ)) (filter_flip : Bool)
    (filter_dilation : Option (List ℤ)) (num_groups : ℤ) (unshared : Bool) :
    Except String ConvParams :=
  if convdim ≠ 2 ∧ convdim ≠ 3 then .error "convolution dimension is not supported"
  else
    let subsample := subsample.getD (List.replicate convdim 1)
    let filter_dilation := filter_dilation.getD (List.replicate convdim 1)
    match normalize_border_mode convdim border_mode with
    | .error e => .error e
    | .ok border_mode =>
      let imshp := imshp.getD (List.replicate (2 + convdim) none)
      let kshp := kshp.getD
        (List.replicate (if unshared then 2 + 2 * convdim else 2 + convdim) none)
      if subsample.length ≠ convdim then .error "subsample must have convdim elements"
      else if filter_dilation.length ≠ convdim then .error "filter_dilation must have convdim elements"
      else if num_groups < 1 then .error "num_groups must have value greater than zero"
      else if unshared ∧ convdim ≠ 2 then .error "Unshared convolution not implemented for this dimensionality"
      else .ok ⟨convdim, border_mode, subsample, filter_flip, imshp, kshp,
        filter_dilation, num_groups, unshared⟩

/-- Group-divisibility checks performed by the reference convolution
routine `BaseAbstractConv.conv` at execution time (abstract_conv.py lines
2325-2333): the number of input channels and the number of filters must
each be divisible by `self.num_groups`, and the kernel's channel count
must equal the channels of one group (using the `num_groups` argument). -/
def conv_group_checks (self_num_groups num_groups : ℤ)
    (img_channels kern_filters kern_channels : ℤ) : Except String Unit :=
  if img_channels.fmod self_num_groups ≠ 0 then
    .error "number of input channels must be divible by num_groups"
  else if kern_filters.fmod self_num_groups ≠ 0 then
    .error "number of filters must be divisible by num_groups"
  else if img_channels.fdiv num_groups ≠ kern_channels then
    .error "the number of input channels in the kernel should specify the number of channels of 1 group"
  else .ok ()

/-- Canonical form of a stored border-mode tuple entry: a non-negative
integer, or (in 2D) a non-negative pair with distinct members. -/
def canonical_axis_mode (convdim : ℕ) : AxisMode → Prop
  | .int v => 0 ≤ v
  | .pair a b => 0 ≤ a ∧ 0 ≤ b ∧ a ≠ b ∧ convdim = 2

theorem validate_axis_mode_canonical {convdim : ℕ} {m m' : AxisMode}
    (h : validate_axis_mode convdim m = .ok m') :
    canonical_axis_mode convdim m' := by
  cases m with
  | int v =>
    simp only [validate_axis_mode] at h
    split_ifs at h with h1
    cases h
    show (0 : ℤ) ≤ v
    omega
  | pair a b =>
    simp only [validate_axis_mode] at h
    split_ifs at h with h1 h2 h3
    · cases h
      show (0 : ℤ) ≤ a
      omega
    · cases h
      exact ⟨by omega, by omega, h3, by omega⟩

theorem canonical_validate {convdim : ℕ} {m : AxisMode}
    (h : canonical_axis_mode convdim m) :
    validate_axis_mode convdim m = .ok m := by
  cases m with
  | int v =>
    have hv : (0 : ℤ) ≤ v := h
    simp only [validate_axis_mode]
    rw [if_neg (by omega)]
  | pair a b =>
    have hp : 0 ≤ a ∧ 0 ≤ b ∧ a ≠ b ∧ convdim = 2 := h
    obtain ⟨h1, h2, h3, h4⟩ := hp
    simp only [validate_axis_mode]
    rw [if_neg (by omega), if_neg (by omega), if_neg h3]

theorem validate_axis_modes_ok {convdim : ℕ} {ms ms' : List AxisMode}
    (h : validate_axis_modes convdim ms = .ok ms') :
    ms'.length = ms.length ∧ ∀ m' ∈ ms', canonical_axis_mode convdim m' := by
  induction ms generalizing ms' with
  | nil =>
    cases h
    simp
  | cons m rest ih =>
    simp only [validate_axis_modes] at h
    cases hm : validate_axis_mode convdim m with
    | error e =>
      rw [hm] at h
      cases h
    | ok mh =>
      rw [hm] at h
      cases hrest : validate_axis_modes convdim rest with
      | error e =>
        rw [hrest] at h
        cases h
      | ok msr =>
        rw [hrest] at h
        cases h
        obtain ⟨hlen, hcan⟩ := ih hrest
        refine ⟨by simp [hlen], ?_⟩
        intro m' hm'
        rcases List.mem_cons.mp hm' with rfl | hmem
        · exact validate_axis_mode_canonical hm
        · exact hcan m' hmem

theorem canonical_validate_list {convdim : ℕ} {ms : List AxisMode}
    (h : ∀ m ∈ ms, canonical_axis_mode convdim m) :
    validate_axis_modes convdim ms = .ok ms := by
  induction ms with
  | nil => rfl
  | cons m rest ih =>
    simp only [validate_axis_modes]
    rw [canonical_validate (h m (List.mem_cons_self m rest)),
      ih fun m' hm' => h m' (List.mem_cons_of_mem m hm')]

theorem validate_axis_modes_zero {convdim : ℕ} {ms : List AxisMode}
    (h : ∀ m ∈ ms, m = .int 0 ∨ (m = .pair 0 0 ∧ convdim = 2)) :
    validate_axis_modes convdim ms = .ok (List.replicate ms.length (.int 0)) := by
  induction ms with
  | nil => rfl
  | cons m rest ih =>
    simp only [validate_axis_modes]
    rw [ih fun m' hm' => h m' (List.mem_cons_of_mem m hm')]
    rcases h m (List.mem_cons_self m rest) with rfl | ⟨rfl, hcd⟩
    · simp [validate_axis_mode, List.replicate]
    · subst hcd
      simp [validate_axis_mode, List.replicate]

theorem replicate_zero_all_zero (n : ℕ) :
    (List.replicate n (AxisMode.int 0)).all axis_mode_is_zero = true := by
  induction n with
  | zero => rfl
  | succ k ih => simp [List.replicate, axis_mode_is_zero, ih]

/-- C8: border-mode normalization at operator construction is
canonicalizing and idempotent: a symmetric pair `(a, a)` normalizes
identically to the scalar `a`; a tuple whose every entry is `0` or
`(0, 0)` normalizes to the string `"valid"`; and normalizing an
already-normalized border mode returns it unchanged. -/
theorem border_mode_normalization_canonical :
    (∀ a b : ℤ, 0 ≤ a → 0 ≤ b →
      normalize_border_mode 2 (.tuple [.pair a a, .pair b b]) =
        normalize_border_mode 2 (.tuple [.int a, .int b])) ∧
    (∀ convdim : ℕ, ∀ ms : List AxisMode, ms.length = convdim →
      (∀ m ∈ ms, m = .int 0 ∨ (m = .pair 0 0 ∧ convdim = 2)) →
      normalize_border_mode convdim (.tuple ms) = .ok .valid) ∧
    (∀ convdim : ℕ, ∀ bm bm' : BorderMode,
      normalize_border_mode convdim bm = .ok bm' →
      normalize_border_mode convdim bm' = .ok bm') := by
  refine ⟨?_, ?_, ?_⟩
  · intro a b ha hb
    have h1 : ¬ (a < 0 ∨ a < 0) := by omega
    have h2 : ¬ (b < 0 ∨ b < 0) := by omega
    have h3 : ¬ a < 0 := by omega
    have h4 : ¬ b < 0 := by omega
    simp [normalize_border_mode, validate_axis_modes, validate_axis_mode,
      h1, h2, h3, h4]
  · intro convdim ms hlen hzero
    simp only [normalize_border_mode]
    rw [if_neg (by omega : ¬ ms.length ≠ convdim)]
    rw [validate_axis_modes_zero hzero]
    simp only [finalize_border_mode]
    rw [if_pos (replicate_zero_all_zero ms.length)]
  · intro convdim bm bm' h
    cases bm with
    | valid =>
      cases h
      rfl
    | full =>
      cases h
      rfl
    | half =>
      cases h
      rfl
    | int v =>
      simp only [normalize_border_mode] at h
      split_ifs at h with hv
      cases h
      simp only [finalize_border_mode]
      by_cases hz : (List.replicate convdim (AxisMode.int v)).all axis_mode_is_zero
      · rw [if_pos hz]
        rfl
      · rw [if_neg hz]
        have hcan : ∀ m ∈ List.replicate convdim (AxisMode.int v),
            canonical_axis_mode convdim m := by
          intro m hm
          rw [List.eq_of_mem_replicate hm]
          show (0 : ℤ) ≤ v
          omega
        simp only [normalize_border_mode]
        rw [if_neg (by simp : ¬ (List.replicate convdim (AxisMode.int v)).length ≠ convdim)]
        rw [canonical_validate_list hcan]
        simp only [finalize_border_mode]
        rw [if_neg hz]
    | tuple ms =>
      simp only [normalize_border_mode] at h
      split_ifs at h with hlen
      cases hval : validate_axis_modes convdim ms with
      | error e =>
        rw [hval] at h
        cases h
      | ok ms' =>
        rw [hval] at h
        cases h
        obtain ⟨hl, hcan⟩ := validate_axis_modes_ok hval
        simp only [finalize_border_mode]
        by_cases hz : ms'.all axis_mode_is_zero
        · rw [if_pos hz]
          rfl
        · rw [if_neg hz]
          simp only [normalize_border_mode]
          rw [if_neg (by omega : ¬ ms'.length ≠ convdim)]
          rw [canonical_validate_list hcan]
          simp only [finalize_border_mode]
          rw [if_neg hz]

/-- Witness for C8: concrete instances of the three conjuncts —
pair `(3, 3)` collapses like scalar `3`; the all-zero tuple `(0, (0,0))`
normalizes to `"valid"`; and renormalizing the stored result of
normalizing border mode `(1, (2, 4))` returns it unchanged. -/
theorem border_mode_normalization_canonical_witness :
    normalize_border_mode 2 (.tuple [.pair 3 3, .pair 1 1]) =
      normalize_border_mode 2 (.tuple [.int 3, .int 1]) ∧
    normalize_border_mode 2 (.tuple [.int 0, .pair 0 0]) = .ok .valid ∧
    normalize_border_mode 2 (.tuple [.int 1, .pair 2 4]) =
      .ok (.tuple [.int 1, .pair 2 4]) := by
  refine ⟨?_, ?_, ?_⟩
  · exact border_mode_normalization_canonical.1 3 1 (by norm_num) (by norm_num)
  · exact border_mode_normalization_canonical.2.1 2 [.int 0, .pair 0 0] rfl
      (by
        intro m hm
        simp only [List.mem_cons, List.not_mem_nil, or_false] at hm
        rcases hm with rfl | rfl
        · exact Or.inl rfl
        · exact Or.inr ⟨rfl, rfl⟩)
  · exact border_mode_normalization_canonical.2.2 2 (.tuple [.int 1, .pair 2 4])
      (.tuple [.int 1, .pair 2 4]) (by decide)

/-- C4 counterexample: constructing a 2D operator whose statically-known
input-channel count (3) is not divisible by `num_groups = 2` succeeds —
`BaseAbstractConv.__init__` performs no divisibility check — while the
corresponding divisibility error is raised only by the execution-time
checks of the reference `conv` routine.  This refutes the claim that the
failure is raised at construction time. -/
theorem conv_init_accepts_nondivisible_groups :
    (∃ p, baseAbstractConv_init 2 (some [some 1, some 3, some 4, some 4])
        (some [some 2, some 1, some 3, some 3]) .valid (some [1, 1]) true
        (some [1, 1]) 2 false = .ok p) ∧
    conv_group_checks 2 2 3 2 1 =
      .error "number of input channels must be divible by num_groups" := by
  exact ⟨⟨_, rfl⟩, by decide⟩

/-- C4 amended: an operator whose channel count is not divisible by
`num_groups` is not rejected at construction (construction validates only
`num_groups >= 1` among the group parameters); the divisibility failure is
raised at execution time by the reference `conv` routine, which raises a
`ValueError` when the number of input channels is not divisible by
`num_groups`. -/
theorem conv_group_divisibility_at_execution
    (imshp kshp : Option (List (Option ℤ))) (flip : Bool)
    (g c f kc : ℤ) (hg : 1 ≤ g) (hc : c.fmod g ≠ 0) :
    (∃ p, baseAbstractConv_init 2 imshp kshp .valid (some [1, 1]) flip
        (some [1, 1]) g false = .ok p) ∧
    conv_group_checks g g c f kc =
      .error "number of input channels must be divible by num_groups" := by
  constructor
  · refine ⟨⟨2, .valid, [1, 1], flip, imshp.getD (List.replicate 4 none),
      kshp.getD (List.replicate 4 none), [1, 1], g, false⟩, ?_⟩
    simp only [baseAbstractConv_init, normalize_border_mode, finalize_border_mode,
      Option.getD_some]
    rw [if_neg (by decide)]
    rw [if_neg (by decide : ¬ ([(1 : ℤ), 1].length ≠ 2))]
    rw [if_neg (by decide : ¬ ([(1 : ℤ), 1].length ≠ 2))]
    rw [if_neg (by omega : ¬ g < 1)]
    rw [if_neg (by simp)]
    norm_num
  · simp only [conv_group_checks]
    rw [if_pos hc]

/-- Witness for the amended C4: `num_groups = 2` with 3 input channels —
construction succeeds and the execution-time check fails. -/
theorem conv_group_divisibility_at_execution_witness :
    (∃ p, baseAbstractConv_init 2 none none .valid (some [1, 1]) true
        (some [1, 1]) 2 false = .ok p) ∧
    conv_group_checks 2 2 3 2 1 =
      .error "number of input channels must be divible by num_groups" :=
  conv_group_divisibility_at_execution none none true 2 3 2 1 (by norm_num)
    (by decide)

/-- Graph path selected by `bilinear_upsampling` after its argument
checks: the fractional-ratio path or the integer-ratio path. -/
inductive UpsamplePath where
  | fracPath
  | intPath
deriving DecidableEq, Repr

/-- Python truthiness of the optional integer `ratio` argument (an
integer is falsy exactly when it is 0). -/
def truthyOptInt : Option ℤ → Bool
  | none => false
  | some v => v != 0

/-- Python truthiness of the optional `frac_ratio` argument (a non-empty
tuple, hence truthy whenever provided). -/
def truthyOptPair : Option (ℤ × ℤ) → Bool
  | none => false
  | some _ => true

/-- Embedding of the argument validation at the head of
`bilinear_upsampling` (abstract_conv.py lines 1971-1984): raises when both
`ratio` and `frac_ratio` are truthy, when neither is, and when
`frac_ratio` is used with `use_1D_kernel=True`; otherwise dispatches to
the fractional or the integer upsampling path. -/
def bilinear_upsampling_dispatch (ratioArg : Option ℤ)
    (fracRatioArg : Option (ℤ × ℤ)) (use_1D_kernel : Bool) :
    Except String UpsamplePath :=
  if truthyOptInt ratioArg && truthyOptPair fracRatioArg then
    .error "cant use ratio and frac_ratio together"
  else if !(truthyOptInt ratioArg || truthyOptPair fracRatioArg) then
    .error "No ratio (or frac_ratio) provided"
  else if truthyOptPair fracRatioArg then
    if use_1D_kernel then
      .error "For fractional ratios 1D kernel method not implemented. You may want to pass use_1D_kernel as False"
    else .ok .fracPath
  else .ok .intPath

/-- C10: `bilinear_upsampling` requires exactly one of `ratio` and
`frac_ratio`: it raises a `ValueError` (never reaching either graph-build
path) when both are provided, when neither is provided, and when
`frac_ratio` is provided together with `use_1D_kernel=True`.  The
hypothesis restricts a provided `ratio` to a positive value (an actual
upsampling ratio), matching Python truthiness. -/
theorem bilinear_upsampling_requires_exactly_one
    (ratioArg : Option ℤ) (fracRatioArg : Option (ℤ × ℤ)) (use1d : Bool)
    (hpos : ∀ v, ratioArg = some v → 0 < v) :
    (ratioArg ≠ none ∧ fracRatioArg ≠ none →
      ∃ e, bilinear_upsampling_dispatch ratioArg fracRatioArg use1d = .error e) ∧
    (ratioArg = none ∧ fracRatioArg = none →
      ∃ e, bilinear_upsampling_dispatch ratioArg fracRatioArg use1d = .error e) ∧
    (fracRatioArg ≠ none ∧ use1d = true →
      ∃ e, bilinear_upsampling_dispatch ratioArg fracRatioArg use1d = .error e) := by
  rcases ratioArg with _ | v
  · rcases fracRatioArg with _ | fr
    · exact ⟨by simp, fun _ => ⟨_, rfl⟩, by simp⟩
    · refine ⟨by simp, by simp, fun hu => ?_⟩
      simp only [bilinear_upsampling_dispatch, truthyOptInt, truthyOptPair,
        Bool.false_and, Bool.false_or, Bool.not_true, hu.2]
      exact ⟨_, rfl⟩
  · have hv : v ≠ 0 := by
      have := hpos v rfl
      omega
    rcases fracRatioArg with _ | fr
    · refine ⟨by simp, by simp, by simp⟩
    · have htr : truthyOptInt (some v) = true := by
        simp [truthyOptInt, hv]
      refine ⟨fun _ => ?_, by simp, fun hu => ?_⟩
      · simp only [bilinear_upsampling_dispatch, htr, truthyOptPair,
          Bool.true_and]
        exact ⟨_, rfl⟩
      · simp only [bilinear_upsampling_dispatch, htr, truthyOptPair,
          Bool.true_and]
        exact ⟨_, rfl⟩

/-- Witness for C10: providing both `ratio = 2` and `frac_ratio = (1, 2)`
raises. -/
theorem bilinear_upsampling_requires_exactly_one_witness :
    ∃ e, bilinear_upsampling_dispatch (some 2) (some (1, 2)) false =
      .error e := by
  exact (bilinear_upsampling_requires_exactly_one (some 2) (some (1, 2)) false
    (by intro v hv; cases hv; norm_num)).1 (by simp)

/-- Embedding of the operator construction performed by `causal_conv1d`
(abstract_conv.py lines 1705-1742): after adding a trivial unit width
axis, it builds an `AbstractConv2d` with
`border_mode = ((left_pad, 0), 0)` where
`left_pad = filter_dilation * (filter_shape[2] - 1)`, subsample
`(subsample, 1)` and dilation `(filter_dilation, 1)`.  Here
`filter_length` stands for `filter_shape[2]`. -/
def causal_conv1d_op (input_shape filter_shape : Option (List (Option ℤ)))
    (filter_length : ℤ) (sub : ℤ) (filter_flip : Bool) (filter_dilation : ℤ)
    (num_groups : ℤ) (unshared : Bool) : Except String ConvParams :=
  baseAbstractConv_init 2 input_shape filter_shape
    (.tuple [.pair (filter_dilation * (filter_length - 1)) 0, .int 0])
    (some [sub, 1]) filter_flip (some [filter_dilation, 1]) num_groups unshared

/-- C7: `causal_conv1d` constructs its underlying 2D convolution with
asymmetric padding `((dilation * (kernel_length - 1), 0), 0)` — left-only
padding on the temporal axis, none on the trivial width axis — and, with
subsample 1, the temporal output length equals the temporal input
length. -/
theorem causal_conv1d_padding_and_length
    (d k L : ℤ) (hd : 1 ≤ d) (hk : 2 ≤ k) (p : ConvParams)
    (hp : causal_conv1d_op none none k 1 true d 1 false = .ok p) :
    p.border_mode = .tuple [.pair (d * (k - 1)) 0, .int 0] ∧
    get_conv_shape_1axis (some L) (some k) (some (.pair (d * (k - 1)) 0))
      (some 1) (some d) = .ok (some L) := by
  have hlp : 0 < d * (k - 1) := mul_pos (by omega) (by omega)
  constructor
  · have hcanon : ∀ m ∈ [AxisMode.pair (d * (k - 1)) 0, AxisMode.int 0],
        canonical_axis_mode 2 m := by
      intro m hm
      simp only [List.mem_cons, List.not_mem_nil, or_false] at hm
      rcases hm with rfl | rfl
      · exact ⟨by omega, le_refl 0, by omega, rfl⟩
      · show (0 : ℤ) ≤ 0
        exact le_refl 0
    have hz : ([AxisMode.pair (d * (k - 1)) 0, AxisMode.int 0].all
        axis_mode_is_zero) = false := by
      simp only [List.all_cons, Bool.and_eq_false_iff]
      left
      simp only [axis_mode_is_zero, Bool.or_eq_false_iff, decide_eq_false_iff_not]
      constructor
      · intro hcon
        cases hcon
      · intro hcon
        injection hcon with h1 h2
        omega
    have hnorm : normalize_border_mode 2
        (.tuple [.pair (d * (k - 1)) 0, .int 0]) =
        .ok (.tuple [.pair (d * (k - 1)) 0, .int 0]) := by
      simp only [normalize_border_mode]
      rw [if_neg (by simp : ¬ ([AxisMode.pair (d * (k - 1)) 0,
        AxisMode.int 0].length ≠ 2))]
      rw [canonical_validate_list hcanon]
      simp only [finalize_border_mode]
      rw [hz]
      rw [if_neg (by decide)]
    simp only [causal_conv1d_op, baseAbstractConv_init] at hp
    rw [if_neg (by decide)] at hp
    rw [hnorm] at hp
    simp at hp
    rw [← hp]
  · have hpad : resolvePad1 (.pair (d * (k - 1)) 0) ((k - 1) * d + 1) =
        .ok (d * (k - 1), 0) := by
      simp only [resolvePad1]
      rw [if_neg (by omega : ¬ (d * (k - 1) < 0 ∨ (0 : ℤ) < 0))]
    rw [get_conv_shape_1axis_eval hpad (by norm_num)]
    have harith : (L + d * (k - 1) + 0 - ((k - 1) * d + 1)).fdiv 1 + 1 = L := by
      rw [Int.fdiv_one]
      ring
    rw [harith]

/-- Witness for C7: dilation 2, kernel length 3 gives left pad 4, and
input length 10 yields output length 10. -/
theorem causal_conv1d_padding_and_length_witness :
    ∃ p, causal_conv1d_op none none 3 1 true 2 1 false = .ok p ∧
      p.border_mode = .tuple [.pair 4 0, .int 0] ∧
      get_conv_shape_1axis (some 10) (some 3) (some (.pair 4 0)) (some 1)
        (some 2) = .ok (some 10) := by
  obtain ⟨p, hp⟩ : ∃ p, causal_conv1d_op none none 3 1 true 2 1 false = .ok p :=
    ⟨_, rfl⟩
  have h := causal_conv1d_padding_and_length 2 3 10 (by norm_num) (by norm_num)
    p hp
  have e4 : (2 : ℤ) * (3 - 1) = 4 := by norm_num
  rw [e4] at h
  exact ⟨p, hp, h.1, h.2⟩

/-- Per-axis border mode seen by `get_conv_shape_1axis` when called from
`get_conv_output_shape` (abstract_conv.py lines 87-100): a tuple border
mode is indexed per axis (out of range raises), any other border mode is
passed through whole. -/
def axis_border (bm : BorderMode) (i : ℕ) : Except String BorderMode1 :=
  match bm with
  | .valid => .ok .valid
  | .full => .ok .full
  | .half => .ok .half
  | .int v => .ok (.int v)
  | .tuple ms =>
    match ms.get? i with
    | some (.int v) => .ok (.int v)
    | some (.pair l r) => .ok (.pair l r)
    | none => .error "IndexError: border_mode index out of range"

/-- Per-axis loop of `get_conv_output_shape` (abstract_conv.py lines
87-100): one forward output size per subsample entry, indexing the
spatial image shape, spatial kernel shape, border mode and dilation at
the running axis index (exhausted lists raise, as Python indexing
would). -/
def conv_out_axes (bm : BorderMode) :
    List (Option ℤ) → List (Option ℤ) → List ℤ → List ℤ → ℕ →
    Except String (List (Option ℤ))
  | _, _, [], _, _ => .ok []
  | im :: ims, kh :: khs, s :: ss, d :: ds, i =>
    match axis_border bm i with
    | .error e => .error e
    | .ok b1 =>
      match get_conv_shape_1axis im kh (some b1) (some s) (some d) with
      | .error e => .error e
      | .ok o =>
        match conv_out_axes bm ims khs ss ds (i + 1) with
        | .error e => .error e
        | .ok os => .ok (o :: os)
  | _, _, _ :: _, _, _ => .error "IndexError: shape index out of range"

/-- Embedding of `get_conv_output_shape` (abstract_conv.py lines 38-101):
batch size from `image_shape[0]`, output channels from `kernel_shape[0]`,
and one spatial size per axis via `get_conv_shape_1axis`, where the
spatial kernel sizes are the last `convdim` entries of the kernel shape
(`kernel_shape[-convdim:]`, accommodating unshared 6-tuple kernels). -/
def get_conv_output_shape (image_shape kernel_shape : List (Option ℤ))
    (bm : BorderMode) (subsample dilation : List ℤ) :
    Except String (List (Option ℤ)) :=
  let convdim := image_shape.length - 2
  match conv_out_axes bm (image_shape.drop 2)
      (kernel_shape.drop (kernel_shape.length - convdim)) subsample dilation 0 with
  | .error e => .error e
  | .ok out_shp =>
    .ok (image_shape.headD none :: kernel_shape.headD none :: out_shp)

/-- Error raised by the `AbstractConv_gradInputs.perform` shape check:
either an error propagated out of shape resolution, or the `ValueError`
reporting a mismatch — which carries (names) both the recomputed expected
output shape and the actual topgrad shape. -/
inductive GradInputsError where
  | convError (e : String)
  | shapeMismatch (expected : List (Option ℤ)) (actual : List ℤ)
deriving DecidableEq, Repr

/-- Expected forward output shape recomputed by
`AbstractConv_gradInputs.perform` (abstract_conv.py lines 3220-3230): the
candidate image shape merges the construction-time `self.imshp` with the
fallback `[topgrad.shape[0], kern.shape[-convdim-1], *shape]`, and the
forward shape is recomputed from it, the kernel shape and the operator's
parameters. -/
def gradInputs_expected_shape (convdim : ℕ) (self_imshp : List (Option ℤ))
    (bm : BorderMode) (subsample dilation : List ℤ)
    (kern_shape topgrad_shape target_shape : List ℤ) :
    Except String (List (Option ℤ)) :=
  let fallback_imshp : List (Option ℤ) :=
    some (topgrad_shape.headD 0) ::
      some ((kern_shape.drop (kern_shape.length - convdim - 1)).headD 0) ::
      target_shape.map some
  let imshp := List.zipWith
    (fun s f => match s with | none => f | some v => some v)
    self_imshp fallback_imshp
  get_conv_output_shape imshp (kern_shape.map some) bm subsample dilation

/-- Shape-consistency check of `AbstractConv_gradInputs.perform`
(abstract_conv.py lines 3228-3236): recompute the expected topgrad shape
and raise a `ValueError` naming both the expected and the actual shape
when they differ; proceed only when they are equal. -/
def gradInputs_shape_check (convdim : ℕ) (self_imshp : List (Option ℤ))
    (bm : BorderMode) (subsample dilation : List ℤ)
    (kern_shape topgrad_shape target_shape : List ℤ) :
    Except GradInputsError Unit :=
  match gradInputs_expected_shape convdim self_imshp bm subsample dilation
      kern_shape topgrad_shape target_shape with
  | .error e => .error (.convError e)
  | .ok expected =>
    if expected ≠ topgrad_shape.map some then
      .error (.shapeMismatch expected topgrad_shape)
    else .ok ()

/-- C6: the `GradInputs` perform recomputes the forward output shape from
the candidate image shape, kernel shape and its parameters, raises a
`ValueError` carrying both the expected shape and the actual topgrad
shape exactly when they differ, and proceeds (returns successfully from
the check) only when they are equal. -/
theorem gradInputs_shape_check_correct
    (convdim : ℕ) (self_imshp : List (Option ℤ)) (bm : BorderMode)
    (subsample dilation kern_shape topgrad_shape target_shape : List ℤ)
    (expected : List (Option ℤ))
    (h : gradInputs_expected_shape convdim self_imshp bm subsample dilation
        kern_shape topgrad_shape target_shape = .ok expected) :
    (gradInputs_shape_check convdim self_imshp bm subsample dilation kern_shape
        topgrad_shape target_shape = .ok () ↔
      expected = topgrad_shape.map some) ∧
    (expected ≠ topgrad_shape.map some →
      gradInputs_shape_check convdim self_imshp bm subsample dilation kern_shape
        topgrad_shape target_shape =
        .error (.shapeMismatch expected topgrad_shape)) := by
  simp only [gradInputs_shape_check, h]
  by_cases he : expected = topgrad_shape.map some
  · rw [if_neg (not_not_intro he)]
    exact ⟨⟨fun _ => he, fun _ => rfl⟩, fun hne => absurd he hne⟩
  · rw [if_pos he]
    constructor
    · constructor
      · intro hcon
        cases hcon
      · intro hcon
        exact absurd hcon he
    · intro _
      rfl

/-- Witness for C6: a 2D `"valid"` instance with kernel `(1,1,3,3)` and
target image spatial shape `(4,4)` — the recomputed forward shape is
`(1,1,2,2)`, so a topgrad of shape `(1,1,3,3)` triggers the error naming
both shapes. -/
theorem gradInputs_shape_check_correct_witness :
    gradInputs_shape_check 2 [none, none, none, none] .valid [1, 1] [1, 1]
        [1, 1, 3, 3] [1, 1, 3, 3] [4, 4] =
      .error (.shapeMismatch [some 1, some 1, some 2, some 2] [1, 1, 3, 3]) := by
  exact (gradInputs_shape_check_correct 2 [none, none, none, none] .valid
    [1, 1] [1, 1] [1, 1, 3, 3] [1, 1, 3, 3] [4, 4]
    [some 1, some 1, some 2, some 2] (by decide)).2 (by decide)

/-- An n-dimensional array: a shape vector and a value for every index
vector (reads are only meaningful for in-bounds indices). -/
structure NDArr (n : ℕ) where
  shape : Fin n → ℕ
  data : (Fin n → ℕ) → ℤ

/-- Position of value `d` in the tuple `t` — the semantics of
`np.argsort` applied to a permutation tuple (extra_ops.py line 47
computes `reaxis_first_inv = tuple(np.argsort(reaxis_first))`). -/
def argsortPerm {n : ℕ} (t : Fin n → Fin n) (d : Fin n) : Fin n :=
  match (List.finRange n).find? (fun k => t k == d) with
  | some k => k
  | none => d

/-- numpy `x.transpose(t)` semantics: output axis `k` is input axis
`t k`; the value at an output index is read by routing input axis `d`
from output position `argsortPerm t d`. -/
def NDArr.transposeT {n : ℕ} (x : NDArr n) (t : Fin n → Fin n) : NDArr n :=
  ⟨fun k => x.shape (t k), fun idx => x.data (fun d => idx (argsortPerm t d))⟩

/-- The permutation tuple `(axis, *(i for i in range(ndim) if i != axis))`
built by `numba_funcify_CumOp` (extra_ops.py line 46). -/
def reaxis_first {n : ℕ} (axis : Fin n) (k : Fin n) : Fin n :=
  if k.val = 0 then axis
  else if k.val ≤ axis.val then ⟨k.val - 1, by omega⟩ else k

/-- The accumulation loop of the per-axis fallback (extra_ops.py lines
67-69 and 91-93): `res[0] = y[0]`, `res[m] = op res[m-1] y[m]`. -/
def scanFirst {n : ℕ} (op : ℤ → ℤ → ℤ) (h : 0 < n) (y : NDArr n) : NDArr n :=
  ⟨y.shape, fun idx =>
    (List.range (idx ⟨0, h⟩)).foldl
      (fun acc m => op acc (y.data (Function.update idx ⟨0, h⟩ (m + 1))))
      (y.data (Function.update idx ⟨0, h⟩ 0))⟩

/-- Cumulative-op mode of `CumOp`. -/
inductive CumMode where
  | add
  | prod
deriving DecidableEq, Repr

/-- Embedding of the per-axis loop fallback generated by
`numba_funcify_CumOp` (extra_ops.py lines 49-95) for `ndim >= 2` and an
in-range axis: an array with fewer than 2 entries along the axis is
returned unchanged (`x.astype(out_dtype)`); otherwise the axis is moved
first (`x.transpose(reaxis_first)`), values are accumulated along it, and
the result is transposed back — with `reaxis_first_inv` (the argsort of
`reaxis_first`) in the `"add"` branch (line 71) but with `reaxis_first`
itself in the `"prod"` branch (line 95). -/
def numba_cumop {n : ℕ} (mode : CumMode) (axis : Fin n) (h : 0 < n)
    (x : NDArr n) : NDArr n :=
  if x.shape axis < 2 then x
  else
    let y := x.transposeT (reaxis_first axis)
    match mode with
    | .add => (scanFirst (· + ·) h y).transposeT (argsortPerm (reaxis_first axis))
    | .prod => (scanFirst (· * ·) h y).transposeT (reaxis_first axis)

/-- The concrete failing input for the `"prod"` branch: a `1 × 1 × 2`
array with entries `2, 3` along the last axis. -/
def cumop_bug_input : NDArr 3 :=
  ⟨fun k => if k.val = 2 then 2 else 1,
   fun idx => if idx ⟨2, by norm_num⟩ = 0 then 2 else 3⟩

/-- C3 evaluation at the failing input: cumulative product along an axis
must preserve the array's shape (as the `"add"` branch does), but on the
`1 × 1 × 2` input with axis 2 the `"prod"` fallback returns an array
whose middle dimension is 2 instead of 1 — it transposes the result with
`reaxis_first` instead of the inverse permutation. -/
theorem numba_cumop_prod_wrong_shape :
    (numba_cumop .prod ⟨2, by norm_num⟩ (by norm_num) cumop_bug_input).shape
        ⟨1, by norm_num⟩ = 2 ∧
    cumop_bug_input.shape ⟨1, by norm_num⟩ = 1 ∧
    (numba_cumop .add ⟨2, by norm_num⟩ (by norm_num) cumop_bug_input).shape
        ⟨1, by norm_num⟩ = 1 := by
  refine ⟨?_, rfl, ?_⟩
  · rfl
  · rfl

/-! Reference execution of the 2D convolution operator family
(`AbstractConv2d`, `AbstractConv2d_gradInputs`, `AbstractConv2d_gradWeights`)
on concrete arrays, for the non-unshared path.  A rank-4 array is a
function from (batch, channel, row, column) indices to exact rationals;
each pipeline step of the `perform` methods is embedded as an index-level
function, and array shapes appear as the summation bounds of the
quadruple loops of `BaseAbstractConv.conv` and of inner products.
Border modes enter `perform` only through the resolved pad pairs
(`border_mode_to_pad`), so the pipelines are parameterized directly by
the non-negative pads `(pl1, pr1), (pl2, pr2)`. -/

/-- A rank-4 array: (batch, channel, row, column) ↦ value. -/
def Arr4 : Type := ℕ → ℕ → ℕ → ℕ → ℚ

/-- Inner product of two rank-4 arrays over a common shape box. -/
def dot4 (nb nc nh nw : ℕ) (x y : Arr4) : ℚ :=
  ∑ b ∈ Finset.range nb, ∑ c ∈ Finset.range nc, ∑ i ∈ Finset.range nh,
    ∑ j ∈ Finset.range nw, x b c i j * y b c i j

/-- Zero padding of the spatial axes (the `new_img` buffers of
`AbstractConv.perform` lines 2514-2537 and of
`AbstractConv_gradWeights.perform` lines 2851-2873): entry `(z1, z2)` of
the padded array is the original entry `(z1 - pl1, z2 - pl2)` inside the
shifted box, and zero elsewhere. -/
def pad2 (pl1 pl2 nh nw : ℕ) (x : Arr4) : Arr4 :=
  fun b c z1 z2 =>
    if pl1 ≤ z1 ∧ z1 < pl1 + nh ∧ pl2 ≤ z2 ∧ z2 < pl2 + nw then
      x b c (z1 - pl1) (z2 - pl2)
    else 0

/-- Spatial flip of a rank-4 kernel (`kern[..., ::-1, ::-1]`,
`AbstractConv.perform` lines 2538-2542). -/
def flip2 (k1 k2 : ℕ) (kern : Arr4) : Arr4 :=
  fun f c u v => kern f c (k1 - 1 - u) (k2 - 1 - v)

/-- Spatial flip of a rank-4 array over a given spatial box (the
`flip_filters`/`flip_topgrad` slices of the gradient performs). -/
def flipSp (n1 n2 : ℕ) (x : Arr4) : Arr4 :=
  fun b c z1 z2 => x b c (n1 - 1 - z1) (n2 - 1 - z2)

/-- Strided selection of the full-resolution convolution output
(`conv_out[:, :, ::sub1, ::sub2]`, `AbstractConv.perform` lines
2595-2601). -/
def subsample2 (s1 s2 : ℕ) (x : Arr4) : Arr4 :=
  fun b o y1 y2 => x b o (s1 * y1) (s2 * y2)

/-- Zero-interleaved scatter of the top gradient into a full-resolution
buffer (`new_topgrad[..., ::sub1, ::sub2] = topgrad`,
`AbstractConv_gradInputs.perform` lines 3237-3257 and
`AbstractConv_gradWeights.perform` lines 2875-2892): entries at stride
multiples hold the top gradient, all others are zero.  For subsample 1
this is the identity on every index that is in range, matching the
code's skipping of the scatter. -/
def scatter2 (s1 s2 t1 t2 : ℕ) (x : Arr4) : Arr4 :=
  fun b f z1 z2 =>
    if s1 ∣ z1 ∧ s2 ∣ z2 ∧ z1 / s1 < t1 ∧ z2 / s2 < t2 then
      x b f (z1 / s1) (z2 / s2)
    else 0

/-- Zero-interleaved dilated kernel slice (`dilated_kern` of
`BaseAbstractConv.conv` lines 2313-2322): entries at dilation multiples
hold the base kernel, all others are zero. -/
def dilate2 (d1 d2 : ℕ) (kern : ℕ → ℕ → ℚ) : ℕ → ℕ → ℚ :=
  fun u v => if d1 ∣ u ∧ d2 ∣ v then kern (u / d1) (v / d2) else 0

/-- True 2D convolution, `"valid"` mode, of one image channel against one
kernel slice of spatial size `(q1, q2)` — the semantics of the external
`scipy` `_convolve2d(img, kern, 1, val, bval, 0)` call of
`BaseAbstractConv.conv` (line 2361): the kernel is flipped and slid
entirely inside the image. -/
def convolve2d_valid (q1 q2 : ℕ) (img kern : ℕ → ℕ → ℚ) : ℕ → ℕ → ℚ :=
  fun y1 y2 =>
    ∑ u ∈ Finset.range q1, ∑ v ∈ Finset.range q2,
      img (y1 + (q1 - 1 - u)) (y2 + (q2 - 1 - v)) * kern u v

/-- True 2D convolution, `"full"` mode, of one image channel of spatial
size `(ih, iw)` against one kernel slice of spatial size `(q1, q2)` —
the semantics of the external `scipy` convolution in `"full"` mode used
by `AbstractConv_gradInputs.perform` (line 3333). -/
def convolve2d_full (ih iw q1 q2 : ℕ) (img kern : ℕ → ℕ → ℚ) : ℕ → ℕ → ℚ :=
  fun r1 r2 =>
    ∑ u ∈ Finset.range q1, ∑ v ∈ Finset.range q2,
      (if u ≤ r1 ∧ r1 - u < ih ∧ v ≤ r2 ∧ r2 - v < iw then
        img (r1 - u) (r2 - v) * kern u v
      else 0)

/-- Grouped reference convolution in `"valid"` mode
(`BaseAbstractConv.conv`, lines 2337-2371, non-unshared branch): for each
output channel `o` (written `g * ocOff + n` by the loop), accumulate the
valid true convolution of each image channel `(o / ocOff) * icOff + m` of
its group against the dilated kernel slice `(o, m)`. -/
def conv_grouped_valid (icOff ocOff d1 d2 k1 k2 : ℕ) (img kern : Arr4) : Arr4 :=
  fun b o y1 y2 =>
    ∑ m ∈ Finset.range icOff,
      convolve2d_valid ((k1 - 1) * d1 + 1) ((k2 - 1) * d2 + 1)
        (img b ((o / ocOff) * icOff + m)) (dilate2 d1 d2 (kern o m)) y1 y2

/-- Grouped reference convolution in `"full"` mode (same loop, `"full"`
boundary), over an image of spatial size `(ih, iw)`. -/
def conv_grouped_full (icOff ocOff d1 d2 k1 k2 ih iw : ℕ) (img kern : Arr4) :
    Arr4 :=
  fun b o r1 r2 =>
    ∑ m ∈ Finset.range icOff,
      convolve2d_full ih iw ((k1 - 1) * d1 + 1) ((k2 - 1) * d2 + 1)
        (img b ((o / ocOff) * icOff + m)) (dilate2 d1 d2 (kern o m)) r1 r2

/-- Embedding of `AbstractConv2d.perform` (lines 2497-2602, non-unshared):
pad the image, flip the kernel when `filter_flip` is false, run the
grouped `"valid"` reference convolution with the filter dilation, and
subsample the full-resolution result.  Shapes: image `(nb, G*cg, nh, nw)`,
kernel `(G*fg, cg, k1, k2)`. -/
def forward_perform (pl1 pl2 nh nw : ℕ) (s1 s2 d1 d2 : ℕ) (cg fg k1 k2 : ℕ)
    (filter_flip : Bool) (img kern : Arr4) : Arr4 :=
  subsample2 s1 s2
    (conv_grouped_valid cg fg d1 d2 k1 k2 (pad2 pl1 pl2 nh nw img)
      (if filter_flip then kern else flip2 k1 k2 kern))

/-- The channel regrouping of `AbstractConv_gradInputs.perform`
(`correct_for_groups`, lines 3275-3299, non-unshared) composed with the
`(1, 0, 2, 3)` axis transpose (line 3326-3327): the result maps
`(c, n, u, v)` to kernel entry `((c / cg) * fg + n, c % cg, u, v)`. -/
def gradInputs_kern (cg fg : ℕ) (kern : Arr4) : Arr4 :=
  fun c n u v => kern ((c / cg) * fg + n) (c % cg) u v

/-- Embedding of `AbstractConv2d_gradInputs.perform` (lines 3203-3354,
non-unshared): scatter the top gradient to full resolution, regroup and
transpose the kernel, optionally flip the top gradient, run the grouped
`"full"` reference convolution with the filter dilation, optionally flip
the result, and crop by the padding.  Shapes: kernel `(G*fg, cg, k1, k2)`,
topgrad `(nb, G*fg, t1, t2)`, target image spatial `(nh, nw)`; the
full-resolution buffer has spatial size
`tz = nh + pl + pr - dil + 1` per axis and the full convolution has
spatial size `tz + dil - 1 = nh + pl + pr`. -/
def gradInputs_perform (pl1 pr1 pl2 pr2 nh nw : ℕ) (s1 s2 d1 d2 : ℕ)
    (cg fg k1 k2 t1 t2 : ℕ) (filter_flip : Bool) (kern topgrad : Arr4) :
    Arr4 :=
  let tz1 := nh + pl1 + pr1 - ((k1 - 1) * d1 + 1) + 1
  let tz2 := nw + pl2 + pr2 - ((k2 - 1) * d2 + 1) + 1
  let tzg := scatter2 s1 s2 t1 t2 topgrad
  let tc := if filter_flip then flipSp tz1 tz2 tzg else tzg
  let kt := gradInputs_kern cg fg kern
  let img := conv_grouped_full fg cg d1 d2 k1 k2 tz1 tz2 tc kt
  let img2 := if filter_flip then
      flipSp (nh + pl1 + pr1) (nw + pl2 + pr2) img
    else img
  fun b c x1 x2 => img2 b c (x1 + pl1) (x2 + pl2)

/-- The batch/channel transpose plus `correct_for_groups` applied to the
padded image by `AbstractConv_gradWeights.perform` (lines 2894-2907): the
result maps `(c, g*nb + b, z1, z2)` to padded-image entry
`(b, g*cg + c, z1, z2)`. -/
def gradWeights_img (cg nb : ℕ) (imgP : Arr4) : Arr4 :=
  fun c gb z1 z2 => imgP (gb % nb) ((gb / nb) * cg + c) z1 z2

/-- Embedding of `AbstractConv2d_gradWeights.perform` (lines 2834-2960,
non-unshared): pad the image, scatter the top gradient to full
resolution, transpose batch and channel axes of both (regrouping the
image channels), flip the scattered top gradient spatially, run the
grouped `"valid"` reference convolution with dilation 1 and the top
gradient as the kernel, transpose the result back, downsample it by the
filter dilation, and flip it spatially when `filter_flip` is set.
Shapes: image `(nb, G*cg, nh, nw)`, topgrad `(nb, G*fg, t1, t2)`, target
kernel spatial `(k1, k2)`. -/
def gradWeights_perform (pl1 pr1 pl2 pr2 nh nw : ℕ) (s1 s2 d1 d2 : ℕ)
    (cg fg k1 k2 t1 t2 nb : ℕ) (filter_flip : Bool) (img topgrad : Arr4) :
    Arr4 :=
  let tz1 := nh + pl1 + pr1 - ((k1 - 1) * d1 + 1) + 1
  let tz2 := nw + pl2 + pr2 - ((k2 - 1) * d2 + 1) + 1
  let imgG := gradWeights_img cg nb (pad2 pl1 pl2 nh nw img)
  let tzf : Arr4 := fun f b z1 z2 =>
    scatter2 s1 s2 t1 t2 topgrad b f (tz1 - 1 - z1) (tz2 - 1 - z2)
  let out := conv_grouped_valid nb fg 1 1 tz1 tz2 imgG tzf
  fun f c j1 j2 =>
    out c f (d1 * (if filter_flip then k1 - 1 - j1 else j1))
      (d2 * (if filter_flip then k2 - 1 - j2 else j2))

/-! Unshared (per-output-position kernel) path of the same 2D operator
family.  An unshared kernel is a rank-6 array in the operator's input
layout `(filter, out_row, out_col, channel, tap_row, tap_col)`; the
`perform` pipelines reindex it through transposes, per-position expansion
and tap flips exactly as the code does. -/

/-- A rank-6 unshared kernel array:
(filter, out_row, out_col, channel, tap_row, tap_col) ↦ value. -/
def Arr6 : Type := ℕ → ℕ → ℕ → ℕ → ℕ → ℕ → ℚ

/-- Inner product of two rank-6 arrays over a common shape box. -/
def dot6 (n1 n2 n3 n4 n5 n6 : ℕ) (x y : Arr6) : ℚ :=
  ∑ a ∈ Finset.range n1, ∑ b ∈ Finset.range n2, ∑ c ∈ Finset.range n3,
    ∑ d ∈ Finset.range n4, ∑ e ∈ Finset.range n5, ∑ i ∈ Finset.range n6,
      x a b c d e i * y a b c d e i

/-- Spatial flip of the last two (tap) axes of a rank-6 kernel
(`kern[..., ::-1, ::-1]`, `AbstractConv.perform` lines 2538-2542 and
`AbstractConv_gradInputs.perform` lines 3313-3317). -/
def flip6 (k1 k2 : ℕ) (kern : Arr6) : Arr6 :=
  fun f r c m u v => kern f r c m (k1 - 1 - u) (k2 - 1 - v)

/-- Zero-interleaved expansion of the kernel's per-position axes to full
resolution (`exp_kern[:, ::s1, ::s2, ...] = kern`, `AbstractConv.perform`
lines 2553-2576 and `AbstractConv_gradInputs.perform` lines 3260-3274),
performed only when some subsample exceeds one, as in the code. -/
def unshared_expand (s1 s2 t1 t2 : ℕ) (kern : Arr6) : Arr6 :=
  fun f r c m u v =>
    if 1 < s1 ∨ 1 < s2 then
      (if s1 ∣ r ∧ s2 ∣ c ∧ r / s1 < t1 ∧ c / s2 < t2 then
        kern f (r / s1) (c / s2) m u v
      else 0)
    else kern f r c m u v

/-- `BaseAbstractConv.unshared2d` in the `"forward"` direction (lines
2399-2407): each output position reads the flipped tap window of its own
kernel slice against the sliding input window. -/
def unshared2d_forward (q1 q2 : ℕ) (inp : ℕ → ℕ → ℚ)
    (kern : ℕ → ℕ → ℕ → ℕ → ℚ) : ℕ → ℕ → ℚ :=
  fun row col =>
    ∑ u ∈ Finset.range q1, ∑ v ∈ Finset.range q2,
      inp (row + u) (col + v) * kern row col (q1 - 1 - u) (q2 - 1 - v)

/-- `BaseAbstractConv.unshared2d` in the `"backprop inputs"` direction
(lines 2415-2421): entry `(x1, x2)` of the scatter-accumulated output
collects every kernel position `(row, col)` whose flipped tap window
covers it. -/
def unshared2d_bpinputs (tz1 tz2 q1 q2 : ℕ) (inp : ℕ → ℕ → ℚ)
    (kern : ℕ → ℕ → ℕ → ℕ → ℚ) : ℕ → ℕ → ℚ :=
  fun x1 x2 =>
    ∑ row ∈ Finset.range tz1, ∑ col ∈ Finset.range tz2,
      (if row ≤ x1 ∧ x1 - row < q1 ∧ col ≤ x2 ∧ x2 - col < q2 then
        inp row col *
          kern row col (q1 - 1 - (x1 - row)) (q2 - 1 - (x2 - col))
      else 0)

/-- `BaseAbstractConv.unshared2d` in the `"backprop weights"` direction
(lines 2408-2414): a rank-4 per-position product of the kernel entry and
the sliding input window. -/
def unshared2d_bpweights (inp kern : ℕ → ℕ → ℚ) : ℕ → ℕ → ℕ → ℕ → ℚ :=
  fun row col a e => kern row col * inp (row + a) (col + e)

/-- Grouped reference convolution, unshared `"forward"` branch
(`BaseAbstractConv.conv`, lines 2343-2358): kernel already in
`(filters, channels, out_rows, out_cols, kH, kW)` layout, taps dilated. -/
def conv_unshared_forward (icOff ocOff d1 d2 k1 k2 : ℕ) (img : Arr4)
    (kern : Arr6) : Arr4 :=
  fun b o r c =>
    ∑ m ∈ Finset.range icOff,
      unshared2d_forward ((k1 - 1) * d1 + 1) ((k2 - 1) * d2 + 1)
        (img b ((o / ocOff) * icOff + m))
        (fun row col u v =>
          if d1 ∣ u ∧ d2 ∣ v then kern o m row col (u / d1) (v / d2) else 0)
        r c

/-- Grouped reference convolution, unshared `"backprop inputs"` branch
(same loop with the scatter-style `unshared2d`). -/
def conv_unshared_bpinputs (icOff ocOff d1 d2 k1 k2 tz1 tz2 : ℕ)
    (img : Arr4) (kern : Arr6) : Arr4 :=
  fun b o x1 x2 =>
    ∑ m ∈ Finset.range icOff,
      unshared2d_bpinputs tz1 tz2 ((k1 - 1) * d1 + 1) ((k2 - 1) * d2 + 1)
        (img b ((o / ocOff) * icOff + m))
        (fun row col u v =>
          if d1 ∣ u ∧ d2 ∣ v then kern o m row col (u / d1) (v / d2) else 0)
        x1 x2

/-- Grouped reference convolution, unshared `"backprop weights"` branch
(`BaseAbstractConv.conv`, lines 2292-2307 and 2343-2358): the special
rank-6 output pairs each kernel position with the sliding window of the
group-corrected image; this call site uses dilation one. -/
def conv_unshared_bpweights (icOff ocOff : ℕ) (img kern : Arr4) : Arr6 :=
  fun b o row col a e =>
    ∑ m ∈ Finset.range icOff,
      unshared2d_bpweights (img b ((o / ocOff) * icOff + m))
        (dilate2 1 1 (kern o m)) row col a e

/-- Embedding of `AbstractConv2d.perform`, unshared branch (lines
2497-2602): pad the image, flip the kernel taps when `filter_flip` is
false, expand the kernel positions when subsampling, transpose to
channels-second, run the unshared `"valid"` reference convolution with the
filter dilation, and subsample.  Kernel layout `(G*fg, t1, t2, cg, k1,
k2)`. -/
def forward_perform_unshared (pl1 pl2 nh nw s1 s2 d1 d2 cg fg t1 t2 k1 k2 : ℕ)
    (filter_flip : Bool) (img : Arr4) (kern : Arr6) : Arr4 :=
  let kf := if filter_flip then kern else flip6 k1 k2 kern
  let ke := unshared_expand s1 s2 t1 t2 kf
  let kt : Arr6 := fun o m r c u v => ke o r c m u v
  subsample2 s1 s2
    (conv_unshared_forward cg fg d1 d2 k1 k2 (pad2 pl1 pl2 nh nw img) kt)

/-- Embedding of `AbstractConv2d_gradInputs.perform`, unshared branch
(lines 3203-3354): scatter the top gradient and expand the kernel
positions to full resolution, regroup the kernel channels
(`correct_for_groups`, unshared branch) and transpose to
(channels, filters-per-group, positions, taps), flip the taps when
`filter_flip` is false, run the unshared `"backprop inputs"` scatter
convolution, and crop by the padding. -/
def gradInputs_perform_unshared
    (pl1 pr1 pl2 pr2 nh nw s1 s2 d1 d2 cg fg k1 k2 t1 t2 : ℕ)
    (filter_flip : Bool) (kern : Arr6) (topgrad : Arr4) : Arr4 :=
  let tz1 := nh + pl1 + pr1 - ((k1 - 1) * d1 + 1) + 1
  let tz2 := nw + pl2 + pr2 - ((k2 - 1) * d2 + 1) + 1
  let tzg := scatter2 s1 s2 t1 t2 topgrad
  let ke := unshared_expand s1 s2 t1 t2 kern
  let kt : Arr6 := fun c n r z u v => ke ((c / cg) * fg + n) r z (c % cg) u v
  let ktf := if filter_flip then kt else flip6 k1 k2 kt
  let img := conv_unshared_bpinputs fg cg d1 d2 k1 k2 tz1 tz2 tzg ktf
  fun b c x1 x2 => img b c (x1 + pl1) (x2 + pl2)

/-- Embedding of `AbstractConv2d_gradWeights.perform`, unshared branch
(lines 2834-2960): pad the image, scatter the top gradient, transpose
batch and channels of both (regrouping the image channels), run the
unshared `"backprop weights"` reference convolution, select the
subsampled kernel positions and the dilated taps, transpose to the kernel
layout, and flip the taps when `filter_flip` is set. -/
def gradWeights_perform_unshared
    (pl1 pr1 pl2 pr2 nh nw s1 s2 d1 d2 cg fg k1 k2 t1 t2 nb : ℕ)
    (filter_flip : Bool) (img topgrad : Arr4) : Arr6 :=
  let imgG := gradWeights_img cg nb (pad2 pl1 pl2 nh nw img)
  let tzT : Arr4 := fun f b z1 z2 => scatter2 s1 s2 t1 t2 topgrad b f z1 z2
  let out := conv_unshared_bpweights nb fg imgG tzT
  fun f r c m j1 j2 =>
    out m f (s1 * r) (s2 * c)
      (d1 * (if filter_flip then k1 - 1 - j1 else j1))
      (d2 * (if filter_flip then k2 - 1 - j2 else j2))

/-- Canonical middle form of the unshared adjointness identities: like
`Mform`, but the abstract kernel read also depends on the output
position `(y1, y2)`. -/
def M6form (nb ng fg cg t1 t2 k1 k2 s1 s2 d1 d2 pl1 pl2 nh nw : ℕ)
    (T X : Arr4) (KR : ℕ → ℕ → ℕ → ℕ → ℕ → ℕ → ℕ → ℚ) : ℚ :=
  ∑ b ∈ Finset.range nb, ∑ g ∈ Finset.range ng, ∑ n ∈ Finset.range fg,
    ∑ m ∈ Finset.range cg, ∑ j1 ∈ Finset.range k1, ∑ j2 ∈ Finset.range k2,
      ∑ y1 ∈ Finset.range t1, ∑ y2 ∈ Finset.range t2,
        T b (g * fg + n) y1 y2 *
          pad2 pl1 pl2 nh nw X b (g * cg + m)
            (s1 * y1 + d1 * j1) (s2 * y2 + d2 * j2) *
          KR g n m j1 j2 y1 y2

/-- Per-pixel cell form of the unshared `GradInputs` output: like the
shared cell form, but the kernel read also carries the top-gradient
position. -/
def GI6cell (cg fg t1 t2 k1 k2 s1 s2 d1 d2 pl1 pl2 tz1 tz2 : ℕ)
    (E1 E2 : ℕ → ℕ) (K : Arr6) (T : Arr4) (b c x1 x2 : ℕ) : ℚ :=
  ∑ n ∈ Finset.range fg, ∑ j1 ∈ Finset.range k1, ∑ j2 ∈ Finset.range k2,
    if d1 * j1 ≤ x1 + pl1 ∧ s1 ∣ (x1 + pl1 - d1 * j1) ∧
        (x1 + pl1 - d1 * j1) / s1 < t1 ∧ x1 + pl1 - d1 * j1 < tz1 then
      (if d2 * j2 ≤ x2 + pl2 ∧ s2 ∣ (x2 + pl2 - d2 * j2) ∧
          (x2 + pl2 - d2 * j2) / s2 < t2 ∧ x2 + pl2 - d2 * j2 < tz2 then
        T b (c / cg * fg + n) ((x1 + pl1 - d1 * j1) / s1)
          ((x2 + pl2 - d2 * j2) / s2) *
        K (c / cg * fg + n) ((x1 + pl1 - d1 * j1) / s1)
          ((x2 + pl2 - d2 * j2) / s2) (c % cg) (E1 j1) (E2 j2)
      else 0)
    else 0

theorem group_div {n fg : ℕ} (g : ℕ) (hn : n < fg) : (g * fg + n) / fg = g := by
  rw [mul_comm, Nat.mul_add_div (by omega), Nat.div_eq_of_lt hn, add_zero]

theorem group_mod {n fg : ℕ} (g : ℕ) (hn : n < fg) : (g * fg + n) % fg = n := by
  rw [mul_comm, Nat.mul_add_mod, Nat.mod_eq_of_lt hn]

theorem sum_group_split (ng fg : ℕ) (f : ℕ → ℚ) :
    ∑ o ∈ Finset.range (ng * fg), f o =
    ∑ g ∈ Finset.range ng, ∑ n ∈ Finset.range fg, f (g * fg + n) := by
  induction ng with
  | zero => simp
  | succ m ih =>
    rw [Nat.succ_mul, Finset.sum_range_add, ih, Finset.sum_range_succ]

/-- Strided-support summation: a sum over a full-resolution range whose
summand vanishes off the stride lattice collapses to the sum over lattice
points. -/
theorem sum_scatter {s t tz : ℕ} (hs : 0 < s) (hb : ∀ y, y < t → s * y < tz)
    (F : ℕ → ℕ → ℚ) :
    (∑ z ∈ Finset.range tz, if s ∣ z ∧ z / s < t then F (z / s) z else 0) =
    ∑ y ∈ Finset.range t, F y (s * y) := by
  rw [← Finset.sum_filter]
  refine Finset.sum_nbij' (fun z => z / s) (fun y => s * y) ?_ ?_ ?_ ?_ ?_
  · intro z hz
    simp only [Finset.mem_filter, Finset.mem_range] at hz
    simpa using hz.2.2
  · intro y hy
    simp only [Finset.mem_range] at hy
    simp only [Finset.mem_filter, Finset.mem_range]
    exact ⟨hb y hy, ⟨y, rfl⟩, by rwa [Nat.mul_div_cancel_left y hs]⟩
  · intro z hz
    simp only [Finset.mem_filter, Finset.mem_range] at hz
    exact Nat.mul_div_cancel' hz.2.1
  · intro y hy
    exact Nat.mul_div_cancel_left y hs
  · intro z hz
    simp only [Finset.mem_filter, Finset.mem_range] at hz
    exact congrArg (F (z / s)) (Nat.mul_div_cancel' hz.2.1).symm

/-- Dilated-support summation: a sum over the dilated kernel range whose
summand vanishes off the dilation lattice collapses to the base kernel
range. -/
theorem sum_dilate {d k : ℕ} (hd : 0 < d) (hk : 0 < k) (F : ℕ → ℕ → ℚ) :
    (∑ u ∈ Finset.range ((k - 1) * d + 1), if d ∣ u then F (u / d) u else 0) =
    ∑ i ∈ Finset.range k, F i (d * i) := by
  have h1 : ∀ u ∈ Finset.range ((k - 1) * d + 1),
      (if d ∣ u then F (u / d) u else 0) =
      (if d ∣ u ∧ u / d < k then F (u / d) u else 0) := by
    intro u hu
    simp only [Finset.mem_range] at hu
    by_cases hdu : d ∣ u
    · obtain ⟨i, rfl⟩ := hdu
      have hik : i < k := by
        by_contra hik
        push_neg at hik
        have : (k - 1) * d + 1 ≤ d * i := by
          calc (k - 1) * d + 1 ≤ (k - 1) * d + d := by omega
          _ = k * d := by
                have : 1 ≤ k := hk
                calc (k - 1) * d + d = ((k - 1) + 1) * d := by ring
                _ = k * d := by rw [Nat.sub_add_cancel this]
          _ ≤ i * d := by exact Nat.mul_le_mul_right d hik
          _ = d * i := by ring
        omega
      have hdvd : d ∣ d * i := ⟨i, rfl⟩
      have hdiv : d * i / d = i := Nat.mul_div_cancel_left i hd
      rw [if_pos (by rw [hdiv]; exact ⟨hdvd, hik⟩ : d ∣ d * i ∧ d * i / d < k),
        if_pos hdvd]
    · rw [if_neg hdu, if_neg (by tauto)]
  rw [Finset.sum_congr rfl h1]
  exact sum_scatter hd (fun y hy => by
    have : y ≤ k - 1 := by omega
    calc d * y ≤ d * (k - 1) := Nat.mul_le_mul_left d this
    _ = (k - 1) * d := by ring
    _ < (k - 1) * d + 1 := by omega) F

/-- Pad-box reindexing between image positions `x` and output positions
`y` related by `x + pl = s * y + dj`: the adjointness core for one
spatial axis, carrying the scatter guards on the left and the pad guards
on the right. -/
theorem sum_padbox {s t tz nh pl dj : ℕ} (hs : 0 < s)
    (hb : ∀ y, y < t → s * y < tz) (F : ℕ → ℕ → ℚ) :
    (∑ x ∈ Finset.range nh,
      if dj ≤ x + pl ∧ s ∣ (x + pl - dj) ∧ (x + pl - dj) / s < t ∧
          x + pl - dj < tz then
        F ((x + pl - dj) / s) x
      else 0) =
    ∑ y ∈ Finset.range t,
      if pl ≤ s * y + dj ∧ s * y + dj < pl + nh then
        F y (s * y + dj - pl)
      else 0 := by
  rw [← Finset.sum_filter, ← Finset.sum_filter]
  refine Finset.sum_nbij' (fun x => (x + pl - dj) / s)
    (fun y => s * y + dj - pl) ?_ ?_ ?_ ?_ ?_
  · intro x hx
    simp only [Finset.mem_filter, Finset.mem_range] at hx ⊢
    obtain ⟨hxh, h1, h2, h3, h4⟩ := hx
    refine ⟨h3, ?_, ?_⟩
    · have : s * ((x + pl - dj) / s) = x + pl - dj := Nat.mul_div_cancel' h2
      omega
    · have : s * ((x + pl - dj) / s) = x + pl - dj := Nat.mul_div_cancel' h2
      omega
  · intro y hy
    simp only [Finset.mem_filter, Finset.mem_range] at hy ⊢
    obtain ⟨hyt, h1, h2⟩ := hy
    have hz : s * y + dj - pl + pl - dj = s * y := by omega
    refine ⟨by omega, by omega, ?_, ?_, ?_⟩
    · rw [hz]
      exact ⟨y, rfl⟩
    · rw [hz, Nat.mul_div_cancel_left y hs]
      exact hyt
    · rw [hz]
      exact hb y hyt
  · intro x hx
    simp only [Finset.mem_filter, Finset.mem_range] at hx
    obtain ⟨hxh, h1, h2, h3, h4⟩ := hx
    show s * ((x + pl - dj) / s) + dj - pl = x
    have hdd : s * ((x + pl - dj) / s) = x + pl - dj := Nat.mul_div_cancel' h2
    omega
  · intro y hy
    simp only [Finset.mem_filter, Finset.mem_range] at hy
    obtain ⟨hyt, h1, h2⟩ := hy
    show (s * y + dj - pl + pl - dj) / s = y
    rw [show s * y + dj - pl + pl - dj = s * y from by omega,
      Nat.mul_div_cancel_left y hs]
  · intro x hx
    simp only [Finset.mem_filter, Finset.mem_range] at hx
    obtain ⟨hxh, h1, h2, h3, h4⟩ := hx
    have hdd : s * ((x + pl - dj) / s) = x + pl - dj := Nat.mul_div_cancel' h2
    rw [hdd]
    congr 1
    omega

theorem nat_mul_sub (d a b : ℕ) : d * (a - b) = d * a - d * b := by
  rcases Nat.le_total b a with h | h
  · obtain ⟨c, rfl⟩ := Nat.exists_eq_add_of_le h
    rw [Nat.add_sub_cancel_left, Nat.mul_add, Nat.add_sub_cancel_left]
  · rw [Nat.sub_eq_zero_of_le h, Nat.mul_zero,
      Nat.sub_eq_zero_of_le (Nat.mul_le_mul_left d h)]

theorem sum_ite_const {P : Prop} [Decidable P] (s : Finset ℕ) (f : ℕ → ℚ) :
    (∑ x ∈ s, if P then f x else 0) = if P then ∑ x ∈ s, f x else 0 := by
  split_ifs <;> simp

theorem sum_rot2 (sa sb sc : Finset ℕ) (f : ℕ → ℕ → ℕ → ℚ) :
    (∑ a ∈ sa, ∑ b ∈ sb, ∑ c ∈ sc, f a b c) =
    ∑ b ∈ sb, ∑ c ∈ sc, ∑ a ∈ sa, f a b c := by
  rw [Finset.sum_comm]
  exact Finset.sum_congr rfl fun b _ => Finset.sum_comm

theorem sum_rot3 (sa sb sc sd : Finset ℕ) (f : ℕ → ℕ → ℕ → ℕ → ℚ) :
    (∑ a ∈ sa, ∑ b ∈ sb, ∑ c ∈ sc, ∑ d ∈ sd, f a b c d) =
    ∑ b ∈ sb, ∑ c ∈ sc, ∑ d ∈ sd, ∑ a ∈ sa, f a b c d := by
  rw [Finset.sum_comm]
  exact Finset.sum_congr rfl fun b _ => sum_rot2 _ _ _ _

theorem sum_rot4 (sa sb sc sd se : Finset ℕ) (f : ℕ → ℕ → ℕ → ℕ → ℕ → ℚ) :
    (∑ a ∈ sa, ∑ b ∈ sb, ∑ c ∈ sc, ∑ d ∈ sd, ∑ e ∈ se, f a b c d e) =
    ∑ b ∈ sb, ∑ c ∈ sc, ∑ d ∈ sd, ∑ e ∈ se, ∑ a ∈ sa, f a b c d e := by
  rw [Finset.sum_comm]
  exact Finset.sum_congr rfl fun b _ => sum_rot3 _ _ _ _ _

theorem sum_rot5 (sa sb sc sd se sf : Finset ℕ)
    (f : ℕ → ℕ → ℕ → ℕ → ℕ → ℕ → ℚ) :
    (∑ a ∈ sa, ∑ b ∈ sb, ∑ c ∈ sc, ∑ d ∈ sd, ∑ e ∈ se, ∑ x ∈ sf,
      f a b c d e x) =
    ∑ b ∈ sb, ∑ c ∈ sc, ∑ d ∈ sd, ∑ e ∈ se, ∑ x ∈ sf, ∑ a ∈ sa,
      f a b c d e x := by
  rw [Finset.sum_comm]
  exact Finset.sum_congr rfl fun b _ => sum_rot4 _ _ _ _ _ _

theorem sum_swap_block23 (sa sb sc sd se : Finset ℕ)
    (f : ℕ → ℕ → ℕ → ℕ → ℕ → ℚ) :
    (∑ a ∈ sa, ∑ b ∈ sb, ∑ c ∈ sc, ∑ d ∈ sd, ∑ e ∈ se, f a b c d e) =
    ∑ c ∈ sc, ∑ d ∈ sd, ∑ e ∈ se, ∑ a ∈ sa, ∑ b ∈ sb, f a b c d e := by
  have h1 : (∑ a ∈ sa, ∑ b ∈ sb, ∑ c ∈ sc, ∑ d ∈ sd, ∑ e ∈ se, f a b c d e) =
      ∑ a ∈ sa, ∑ c ∈ sc, ∑ d ∈ sd, ∑ e ∈ se, ∑ b ∈ sb, f a b c d e :=
    Finset.sum_congr rfl fun a _ => sum_rot3 _ _ _ _ _
  rw [h1]
  exact sum_rot3 _ _ _ _ _

/-- Canonical middle form of both sides of each adjointness identity (2D,
non-unshared): a sum over batch, group, per-group output channel `n`,
per-group input channel `m`, kernel taps `(j1, j2)` and output positions
`(y1, y2)` of the top gradient entry times the padded-image read at
`(s * y + d * j)` times an abstract kernel read. -/
def Mform (nb ng fg cg t1 t2 k1 k2 s1 s2 d1 d2 pl1 pl2 nh nw : ℕ)
    (T X : Arr4) (KR : ℕ → ℕ → ℕ → ℕ → ℕ → ℚ) : ℚ :=
  ∑ b ∈ Finset.range nb, ∑ g ∈ Finset.range ng, ∑ n ∈ Finset.range fg,
    ∑ m ∈ Finset.range cg, ∑ j1 ∈ Finset.range k1, ∑ j2 ∈ Finset.range k2,
      ∑ y1 ∈ Finset.range t1, ∑ y2 ∈ Finset.range t2,
        T b (g * fg + n) y1 y2 *
          pad2 pl1 pl2 nh nw X b (g * cg + m)
            (s1 * y1 + d1 * j1) (s2 * y2 + d2 * j2) *
          KR g n m j1 j2

theorem conv_cell_expand {d1 d2 k1 k2 : ℕ} (hd1 : 0 < d1) (hd2 : 0 < d2)
    (hk1 : 0 < k1) (hk2 : 0 < k2) (Ipr : ℕ → ℕ → ℚ) (Kc : ℕ → ℕ → ℚ)
    (z1 z2 : ℕ) :
    (∑ u ∈ Finset.range ((k1 - 1) * d1 + 1),
      ∑ v ∈ Finset.range ((k2 - 1) * d2 + 1),
        Ipr (z1 + ((k1 - 1) * d1 + 1 - 1 - u)) (z2 + ((k2 - 1) * d2 + 1 - 1 - v)) *
          (if d1 ∣ u ∧ d2 ∣ v then Kc (u / d1) (v / d2) else 0)) =
    ∑ i1 ∈ Finset.range k1, ∑ i2 ∈ Finset.range k2,
      Ipr (z1 + d1 * (k1 - 1 - i1)) (z2 + d2 * (k2 - 1 - i2)) * Kc i1 i2 := by
  have hsplit : ∀ u v,
      Ipr (z1 + ((k1 - 1) * d1 + 1 - 1 - u)) (z2 + ((k2 - 1) * d2 + 1 - 1 - v)) *
        (if d1 ∣ u ∧ d2 ∣ v then Kc (u / d1) (v / d2) else 0) =
      (if d1 ∣ u then
        (if d2 ∣ v then
          Ipr (z1 + ((k1 - 1) * d1 + 1 - 1 - u))
            (z2 + ((k2 - 1) * d2 + 1 - 1 - v)) * Kc (u / d1) (v / d2)
        else 0)
      else 0) := by
    intro u v
    by_cases hP : d1 ∣ u <;> by_cases hQ : d2 ∣ v <;> simp [hP, hQ]
  have hstep1 : ∀ u,
      (∑ v ∈ Finset.range ((k2 - 1) * d2 + 1),
        Ipr (z1 + ((k1 - 1) * d1 + 1 - 1 - u)) (z2 + ((k2 - 1) * d2 + 1 - 1 - v)) *
          (if d1 ∣ u ∧ d2 ∣ v then Kc (u / d1) (v / d2) else 0)) =
      (if d1 ∣ u then
        ∑ i2 ∈ Finset.range k2,
          Ipr (z1 + ((k1 - 1) * d1 + 1 - 1 - u)) (z2 + d2 * (k2 - 1 - i2)) *
            Kc (u / d1) i2
      else 0) := by
    intro u
    rw [Finset.sum_congr rfl fun v _ => hsplit u v, sum_ite_const]
    by_cases hP : d1 ∣ u
    · rw [if_pos hP, if_pos hP]
      rw [sum_dilate hd2 hk2
        (fun i2 v => Ipr (z1 + ((k1 - 1) * d1 + 1 - 1 - u))
          (z2 + ((k2 - 1) * d2 + 1 - 1 - v)) * Kc (u / d1) i2)]
      refine Finset.sum_congr rfl fun i2 hi2 => ?_
      simp only [Finset.mem_range] at hi2
      congr 2
      rw [nat_mul_sub, Nat.mul_comm d2 (k2 - 1)]
      omega
    · rw [if_neg hP, if_neg hP]
  rw [Finset.sum_congr rfl fun u _ => hstep1 u]
  rw [sum_dilate hd1 hk1
    (fun i1 u => ∑ i2 ∈ Finset.range k2,
      Ipr (z1 + ((k1 - 1) * d1 + 1 - 1 - u)) (z2 + d2 * (k2 - 1 - i2)) *
        Kc i1 i2)]
  refine Finset.sum_congr rfl fun i1 hi1 => Finset.sum_congr rfl fun i2 hi2 => ?_
  simp only [Finset.mem_range] at hi1 hi2
  congr 3
  rw [nat_mul_sub, Nat.mul_comm d1 (k1 - 1)]
  omega

theorem cell_reflect (k1 k2 d1 d2 : ℕ) (F : ℕ → ℕ → ℕ → ℕ → ℚ) :
    (∑ i1 ∈ Finset.range k1, ∑ i2 ∈ Finset.range k2,
      F (d1 * (k1 - 1 - i1)) (d2 * (k2 - 1 - i2)) i1 i2) =
    ∑ j1 ∈ Finset.range k1, ∑ j2 ∈ Finset.range k2,
      F (d1 * j1) (d2 * j2) (k1 - 1 - j1) (k2 - 1 - j2) := by
  rw [← Finset.sum_range_reflect]
  refine Finset.sum_congr rfl fun j1 hj1 => ?_
  simp only [Finset.mem_range] at hj1
  rw [← Finset.sum_range_reflect]
  refine Finset.sum_congr rfl fun j2 hj2 => ?_
  simp only [Finset.mem_range] at hj2
  congr 2 <;> omega

/-- Forward-side expansion: the inner product of the top gradient with the
forward `perform` output equals the canonical middle form, the kernel
being read at tap `(k - 1 - j)` (true convolution) or `j`
(cross-correlation). -/
theorem forward_dot_expand
    {nb ng fg cg t1 t2 k1 k2 s1 s2 d1 d2 pl1 pl2 nh nw : ℕ}
    (φ : Bool) (T X K : Arr4)
    (hd1 : 0 < d1) (hd2 : 0 < d2) (hk1 : 0 < k1) (hk2 : 0 < k2) :
    dot4 nb (ng * fg) t1 t2 T
      (forward_perform pl1 pl2 nh nw s1 s2 d1 d2 cg fg k1 k2 φ X K) =
    Mform nb ng fg cg t1 t2 k1 k2 s1 s2 d1 d2 pl1 pl2 nh nw T X
      (fun g n m j1 j2 => K (g * fg + n) m (if φ then k1 - 1 - j1 else j1)
        (if φ then k2 - 1 - j2 else j2)) := by
  simp only [dot4, forward_perform, subsample2, conv_grouped_valid,
    convolve2d_valid, dilate2, Mform]
  have hcell : ∀ b o y1 y2,
      (∑ m ∈ Finset.range cg, ∑ u ∈ Finset.range ((k1 - 1) * d1 + 1),
        ∑ v ∈ Finset.range ((k2 - 1) * d2 + 1),
          pad2 pl1 pl2 nh nw X b (o / fg * cg + m)
            (s1 * y1 + ((k1 - 1) * d1 + 1 - 1 - u))
            (s2 * y2 + ((k2 - 1) * d2 + 1 - 1 - v)) *
          (if d1 ∣ u ∧ d2 ∣ v then
            (if φ then K else flip2 k1 k2 K) o m (u / d1) (v / d2)
          else 0)) =
      ∑ m ∈ Finset.range cg, ∑ j1 ∈ Finset.range k1, ∑ j2 ∈ Finset.range k2,
        pad2 pl1 pl2 nh nw X b (o / fg * cg + m)
          (s1 * y1 + d1 * j1) (s2 * y2 + d2 * j2) *
        K o m (if φ then k1 - 1 - j1 else j1) (if φ then k2 - 1 - j2 else j2) := by
    intro b o y1 y2
    refine Finset.sum_congr rfl fun m _ => ?_
    rw [conv_cell_expand hd1 hd2 hk1 hk2
      (fun a1 a2 => pad2 pl1 pl2 nh nw X b (o / fg * cg + m) a1 a2)
      (fun i1 i2 => (if φ then K else flip2 k1 k2 K) o m i1 i2)
      (s1 * y1) (s2 * y2)]
    rw [cell_reflect k1 k2 d1 d2
      (fun a1 a2 i1 i2 => pad2 pl1 pl2 nh nw X b (o / fg * cg + m)
        (s1 * y1 + a1) (s2 * y2 + a2) *
        (if φ then K else flip2 k1 k2 K) o m i1 i2)]
    refine Finset.sum_congr rfl fun j1 hj1 => Finset.sum_congr rfl fun j2 hj2 => ?_
    simp only [Finset.mem_range] at hj1 hj2
    congr 1
    cases φ
    · simp only [Bool.false_eq_true, if_false, flip2]
      congr 1 <;> omega
    · simp only [if_true]
  calc
    ∑ b ∈ Finset.range nb, ∑ o ∈ Finset.range (ng * fg),
      ∑ y1 ∈ Finset.range t1, ∑ y2 ∈ Finset.range t2,
        T b o y1 y2 *
        ∑ m ∈ Finset.range cg, ∑ u ∈ Finset.range ((k1 - 1) * d1 + 1),
          ∑ v ∈ Finset.range ((k2 - 1) * d2 + 1),
            pad2 pl1 pl2 nh nw X b (o / fg * cg + m)
              (s1 * y1 + ((k1 - 1) * d1 + 1 - 1 - u))
              (s2 * y2 + ((k2 - 1) * d2 + 1 - 1 - v)) *
            (if d1 ∣ u ∧ d2 ∣ v then
              (if φ then K else flip2 k1 k2 K) o m (u / d1) (v / d2)
            else 0) =
        ∑ b ∈ Finset.range nb, ∑ o ∈ Finset.range (ng * fg),
          ∑ y1 ∈ Finset.range t1, ∑ y2 ∈ Finset.range t2,
            ∑ m ∈ Finset.range cg, ∑ j1 ∈ Finset.range k1,
              ∑ j2 ∈ Finset.range k2,
                T b o y1 y2 *
                (pad2 pl1 pl2 nh nw X b (o / fg * cg + m)
                  (s1 * y1 + d1 * j1) (s2 * y2 + d2 * j2) *
                K o m (if φ then k1 - 1 - j1 else j1)
                  (if φ then k2 - 1 - j2 else j2)) := by
      refine Finset.sum_congr rfl fun b _ => Finset.sum_congr rfl fun o _ =>
        Finset.sum_congr rfl fun y1 _ => Finset.sum_congr rfl fun y2 _ => ?_
      rw [hcell b o y1 y2]
      simp only [Finset.mul_sum]
    _ = ∑ b ∈ Finset.range nb, ∑ g ∈ Finset.range ng, ∑ n ∈ Finset.range fg,
          ∑ y1 ∈ Finset.range t1, ∑ y2 ∈ Finset.range t2,
            ∑ m ∈ Finset.range cg, ∑ j1 ∈ Finset.range k1,
              ∑ j2 ∈ Finset.range k2,
                T b (g * fg + n) y1 y2 *
                (pad2 pl1 pl2 nh nw X b (g * cg + m)
                  (s1 * y1 + d1 * j1) (s2 * y2 + d2 * j2) *
                K (g * fg + n) m (if φ then k1 - 1 - j1 else j1)
                  (if φ then k2 - 1 - j2 else j2)) := by
      refine Finset.sum_congr rfl fun b _ => ?_
      rw [sum_group_split ng fg]
      refine Finset.sum_congr rfl fun g _ => Finset.sum_congr rfl fun n hn => ?_
      simp only [Finset.mem_range] at hn
      rw [group_div g hn]
    _ = ∑ b ∈ Finset.range nb, ∑ g ∈ Finset.range ng, ∑ n ∈ Finset.range fg,
          ∑ m ∈ Finset.range cg, ∑ j1 ∈ Finset.range k1,
            ∑ j2 ∈ Finset.range k2, ∑ y1 ∈ Finset.range t1,
              ∑ y2 ∈ Finset.range t2,
                T b (g * fg + n) y1 y2 *
                pad2 pl1 pl2 nh nw X b (g * cg + m)
                  (s1 * y1 + d1 * j1) (s2 * y2 + d2 * j2) *
                K (g * fg + n) m (if φ then k1 - 1 - j1 else j1)
                  (if φ then k2 - 1 - j2 else j2) := by
      refine Finset.sum_congr rfl fun b _ => Finset.sum_congr rfl fun g _ =>
        Finset.sum_congr rfl fun n _ => ?_
      rw [sum_swap_block23]
      refine Finset.sum_congr rfl fun m _ => Finset.sum_congr rfl fun j1 _ =>
        Finset.sum_congr rfl fun j2 _ => Finset.sum_congr rfl fun y1 _ =>
        Finset.sum_congr rfl fun y2 _ => ?_
      ring

/-- Intermediate per-pixel form of the `GradInputs` output: for each
per-group channel `n` and kernel tap `(j1, j2)`, the top-gradient entry
at the strided position `(x + pl - d * j) / s`, guarded by the
stride-lattice and range conditions, times the kernel read at
transformed taps `(E1 j1, E2 j2)`. -/
def GIcell (cg fg t1 t2 k1 k2 s1 s2 d1 d2 pl1 pl2 tz1 tz2 : ℕ)
    (E1 E2 : ℕ → ℕ) (K T : Arr4) (b c x1 x2 : ℕ) : ℚ :=
  ∑ n ∈ Finset.range fg, ∑ j1 ∈ Finset.range k1, ∑ j2 ∈ Finset.range k2,
    if d1 * j1 ≤ x1 + pl1 ∧ s1 ∣ (x1 + pl1 - d1 * j1) ∧
        (x1 + pl1 - d1 * j1) / s1 < t1 ∧ x1 + pl1 - d1 * j1 < tz1 then
      (if d2 * j2 ≤ x2 + pl2 ∧ s2 ∣ (x2 + pl2 - d2 * j2) ∧
          (x2 + pl2 - d2 * j2) / s2 < t2 ∧ x2 + pl2 - d2 * j2 < tz2 then
        T b (c / cg * fg + n) ((x1 + pl1 - d1 * j1) / s1)
          ((x2 + pl2 - d2 * j2) / s2) *
        K (c / cg * fg + n) (c % cg) (E1 j1) (E2 j2)
      else 0)
    else 0

/-- Assembly of the `GradInputs` cell form into the canonical middle form:
the per-axis pad-box bijections exchange image positions for output
positions, the pad guards fuse into the padded read, and splitting the
channel index into (group, channel-in-group) aligns the factors. -/
theorem GIcell_dot {nb ng fg cg t1 t2 k1 k2 s1 s2 d1 d2 pl1 pl2 nh nw tz1 tz2 : ℕ}
    (E1 E2 : ℕ → ℕ) (K T dI : Arr4) (hs1 : 0 < s1) (hs2 : 0 < s2)
    (hb1 : ∀ y, y < t1 → s1 * y < tz1) (hb2 : ∀ y, y < t2 → s2 * y < tz2) :
    (∑ b ∈ Finset.range nb, ∑ c ∈ Finset.range (ng * cg),
      ∑ x1 ∈ Finset.range nh, ∑ x2 ∈ Finset.range nw,
        GIcell cg fg t1 t2 k1 k2 s1 s2 d1 d2 pl1 pl2 tz1 tz2 E1 E2 K T b c x1 x2 *
          dI b c x1 x2) =
    Mform nb ng fg cg t1 t2 k1 k2 s1 s2 d1 d2 pl1 pl2 nh nw T dI
      (fun g n m j1 j2 => K (g * fg + n) m (E1 j1) (E2 j2)) := by
  simp only [GIcell, Mform, Finset.sum_mul, ite_mul, zero_mul]
  calc
    ∑ b ∈ Finset.range nb, ∑ c ∈ Finset.range (ng * cg),
      ∑ x1 ∈ Finset.range nh, ∑ x2 ∈ Finset.range nw,
        ∑ n ∈ Finset.range fg, ∑ j1 ∈ Finset.range k1, ∑ j2 ∈ Finset.range k2,
          (if d1 * j1 ≤ x1 + pl1 ∧ s1 ∣ (x1 + pl1 - d1 * j1) ∧
              (x1 + pl1 - d1 * j1) / s1 < t1 ∧ x1 + pl1 - d1 * j1 < tz1 then
            (if d2 * j2 ≤ x2 + pl2 ∧ s2 ∣ (x2 + pl2 - d2 * j2) ∧
                (x2 + pl2 - d2 * j2) / s2 < t2 ∧ x2 + pl2 - d2 * j2 < tz2 then
              T b (c / cg * fg + n) ((x1 + pl1 - d1 * j1) / s1)
                ((x2 + pl2 - d2 * j2) / s2) *
              K (c / cg * fg + n) (c % cg) (E1 j1) (E2 j2) * dI b c x1 x2
            else 0)
          else 0) =
        ∑ b ∈ Finset.range nb, ∑ c ∈ Finset.range (ng * cg),
          ∑ n ∈ Finset.range fg, ∑ j1 ∈ Finset.range k1,
            ∑ j2 ∈ Finset.range k2,
              ∑ y1 ∈ Finset.range t1, ∑ y2 ∈ Finset.range t2,
                T b (c / cg * fg + n) y1 y2 *
                pad2 pl1 pl2 nh nw dI b c (s1 * y1 + d1 * j1)
                  (s2 * y2 + d2 * j2) *
                K (c / cg * fg + n) (c % cg) (E1 j1) (E2 j2) := by
      refine Finset.sum_congr rfl fun b _ => Finset.sum_congr rfl fun c _ => ?_
      rw [sum_swap_block23]
      refine Finset.sum_congr rfl fun n _ => Finset.sum_congr rfl fun j1 _ =>
        Finset.sum_congr rfl fun j2 _ => ?_
      have hx2 : ∀ x1,
          (∑ x2 ∈ Finset.range nw,
            (if d1 * j1 ≤ x1 + pl1 ∧ s1 ∣ (x1 + pl1 - d1 * j1) ∧
                (x1 + pl1 - d1 * j1) / s1 < t1 ∧ x1 + pl1 - d1 * j1 < tz1 then
              (if d2 * j2 ≤ x2 + pl2 ∧ s2 ∣ (x2 + pl2 - d2 * j2) ∧
                  (x2 + pl2 - d2 * j2) / s2 < t2 ∧ x2 + pl2 - d2 * j2 < tz2 then
                T b (c / cg * fg + n) ((x1 + pl1 - d1 * j1) / s1)
                  ((x2 + pl2 - d2 * j2) / s2) *
                K (c / cg * fg + n) (c % cg) (E1 j1) (E2 j2) * dI b c x1 x2
              else 0)
            else 0)) =
          (if d1 * j1 ≤ x1 + pl1 ∧ s1 ∣ (x1 + pl1 - d1 * j1) ∧
              (x1 + pl1 - d1 * j1) / s1 < t1 ∧ x1 + pl1 - d1 * j1 < tz1 then
            ∑ y2 ∈ Finset.range t2,
              (if pl2 ≤ s2 * y2 + d2 * j2 ∧ s2 * y2 + d2 * j2 < pl2 + nw then
                T b (c / cg * fg + n) ((x1 + pl1 - d1 * j1) / s1) y2 *
                K (c / cg * fg + n) (c % cg) (E1 j1) (E2 j2) *
                dI b c x1 (s2 * y2 + d2 * j2 - pl2)
              else 0)
          else 0) := by
        intro x1
        rw [sum_ite_const]
        by_cases hg1 : d1 * j1 ≤ x1 + pl1 ∧ s1 ∣ (x1 + pl1 - d1 * j1) ∧
            (x1 + pl1 - d1 * j1) / s1 < t1 ∧ x1 + pl1 - d1 * j1 < tz1
        · rw [if_pos hg1, if_pos hg1]
          exact sum_padbox hs2 hb2
            (fun y2 x2 => T b (c / cg * fg + n) ((x1 + pl1 - d1 * j1) / s1) y2 *
              K (c / cg * fg + n) (c % cg) (E1 j1) (E2 j2) * dI b c x1 x2)
        · rw [if_neg hg1, if_neg hg1]
      rw [Finset.sum_congr rfl fun x1 _ => hx2 x1]
      rw [sum_padbox hs1 hb1
        (fun y1 x1 => ∑ y2 ∈ Finset.range t2,
          (if pl2 ≤ s2 * y2 + d2 * j2 ∧ s2 * y2 + d2 * j2 < pl2 + nw then
            T b (c / cg * fg + n) y1 y2 *
            K (c / cg * fg + n) (c % cg) (E1 j1) (E2 j2) *
            dI b c x1 (s2 * y2 + d2 * j2 - pl2)
          else 0))]
      refine Finset.sum_congr rfl fun y1 _ => ?_
      rw [← sum_ite_const]
      refine Finset.sum_congr rfl fun y2 _ => ?_
      simp only [pad2]
      by_cases hp1 : pl1 ≤ s1 * y1 + d1 * j1 ∧ s1 * y1 + d1 * j1 < pl1 + nh
      · rw [if_pos hp1]
        by_cases hp2 : pl2 ≤ s2 * y2 + d2 * j2 ∧ s2 * y2 + d2 * j2 < pl2 + nw
        · rw [if_pos hp2, if_pos ⟨hp1.1, hp1.2, hp2.1, hp2.2⟩]
          ring
        · rw [if_neg hp2, if_neg (fun hcon => hp2 ⟨hcon.2.2.1, hcon.2.2.2⟩)]
          ring
      · rw [if_neg hp1, if_neg (fun hcon => hp1 ⟨hcon.1, hcon.2.1⟩)]
        ring
    _ = ∑ b ∈ Finset.range nb, ∑ g ∈ Finset.range ng, ∑ n ∈ Finset.range fg,
          ∑ m ∈ Finset.range cg, ∑ j1 ∈ Finset.range k1,
            ∑ j2 ∈ Finset.range k2, ∑ y1 ∈ Finset.range t1,
              ∑ y2 ∈ Finset.range t2,
                T b (g * fg + n) y1 y2 *
                pad2 pl1 pl2 nh nw dI b (g * cg + m) (s1 * y1 + d1 * j1)
                  (s2 * y2 + d2 * j2) *
                K (g * fg + n) m (E1 j1) (E2 j2) := by
      refine Finset.sum_congr rfl fun b _ => ?_
      rw [sum_group_split ng cg]
      refine Finset.sum_congr rfl fun g _ => ?_
      rw [Finset.sum_comm]
      refine Finset.sum_congr rfl fun n _ => Finset.sum_congr rfl fun m hm => ?_
      simp only [Finset.mem_range] at hm
      rw [group_div g hm, group_mod g hm]

theorem ite_dvd_reorder {P Q R : Prop} [Decidable P] [Decidable Q] [Decidable R]
    (sv kv : ℚ) :
    (if R then sv * (if P ∧ Q then kv else 0) else 0) =
    (if Q then (if P then (if R then sv * kv else 0) else 0) else 0) := by
  by_cases hP : P <;> by_cases hQ : Q <;> by_cases hR : R <;>
    simp [hP, hQ, hR]

theorem ite_regroup {A1 B1 A2 B2 C1 C2 D1 D2 : Prop}
    [Decidable A1] [Decidable B1] [Decidable A2] [Decidable B2]
    [Decidable C1] [Decidable C2] [Decidable D1] [Decidable D2]
    (tv kv : ℚ) :
    (if A1 ∧ B1 ∧ A2 ∧ B2 then (if C1 ∧ C2 ∧ D1 ∧ D2 then tv else 0) * kv
    else 0) =
    (if A1 ∧ C1 ∧ D1 ∧ B1 then (if A2 ∧ C2 ∧ D2 ∧ B2 then tv * kv else 0)
    else 0) := by
  by_cases hA1 : A1 <;> by_cases hB1 : B1 <;> by_cases hA2 : A2 <;>
    by_cases hB2 : B2 <;> by_cases hC1 : C1 <;> by_cases hC2 : C2 <;>
    by_cases hD1 : D1 <;> by_cases hD2 : D2 <;>
    simp [hA1, hB1, hA2, hB2, hC1, hC2, hD1, hD2]

theorem gradInputs_eq_cell_false
    {cg fg t1 t2 k1 k2 s1 s2 d1 d2 pl1 pr1 pl2 pr2 nh nw : ℕ}
    (hd1 : 0 < d1) (hd2 : 0 < d2) (hk1 : 0 < k1) (hk2 : 0 < k2)
    (K T : Arr4) (b c x1 x2 : ℕ) :
    gradInputs_perform pl1 pr1 pl2 pr2 nh nw s1 s2 d1 d2 cg fg k1 k2 t1 t2
      false K T b c x1 x2 =
    GIcell cg fg t1 t2 k1 k2 s1 s2 d1 d2 pl1 pl2
      (nh + pl1 + pr1 - ((k1 - 1) * d1 + 1) + 1)
      (nw + pl2 + pr2 - ((k2 - 1) * d2 + 1) + 1)
      (fun j => j) (fun j => j) K T b c x1 x2 := by
  simp only [gradInputs_perform, GIcell, conv_grouped_full, convolve2d_full,
    gradInputs_kern, dilate2, scatter2, Bool.false_eq_true, if_false]
  refine Finset.sum_congr rfl fun n _ => ?_
  have hreorder : ∀ u v,
      (if u ≤ x1 + pl1 ∧ x1 + pl1 - u < nh + pl1 + pr1 - ((k1 - 1) * d1 + 1) + 1 ∧
          v ≤ x2 + pl2 ∧ x2 + pl2 - v < nw + pl2 + pr2 - ((k2 - 1) * d2 + 1) + 1 then
        (if s1 ∣ x1 + pl1 - u ∧ s2 ∣ x2 + pl2 - v ∧ (x1 + pl1 - u) / s1 < t1 ∧
            (x2 + pl2 - v) / s2 < t2 then
          T b (c / cg * fg + n) ((x1 + pl1 - u) / s1) ((x2 + pl2 - v) / s2)
        else 0) *
        (if d1 ∣ u ∧ d2 ∣ v then K (c / cg * fg + n) (c % cg) (u / d1) (v / d2)
        else 0)
      else 0) =
      (if d2 ∣ v then
        (if d1 ∣ u then
          (if u ≤ x1 + pl1 ∧ x1 + pl1 - u < nh + pl1 + pr1 - ((k1 - 1) * d1 + 1) + 1 ∧
              v ≤ x2 + pl2 ∧ x2 + pl2 - v < nw + pl2 + pr2 - ((k2 - 1) * d2 + 1) + 1 then
            (if s1 ∣ x1 + pl1 - u ∧ s2 ∣ x2 + pl2 - v ∧ (x1 + pl1 - u) / s1 < t1 ∧
                (x2 + pl2 - v) / s2 < t2 then
              T b (c / cg * fg + n) ((x1 + pl1 - u) / s1) ((x2 + pl2 - v) / s2)
            else 0) *
            K (c / cg * fg + n) (c % cg) (u / d1) (v / d2)
          else 0)
        else 0)
      else 0) := by
    intro u v
    exact ite_dvd_reorder _ _
  rw [Finset.sum_congr rfl fun u _ => Finset.sum_congr rfl fun v _ => hreorder u v]
  rw [Finset.sum_congr rfl fun u _ =>
    sum_dilate hd2 hk2 (fun i2 v =>
      (if d1 ∣ u then
        (if u ≤ x1 + pl1 ∧ x1 + pl1 - u < nh + pl1 + pr1 - ((k1 - 1) * d1 + 1) + 1 ∧
            v ≤ x2 + pl2 ∧ x2 + pl2 - v < nw + pl2 + pr2 - ((k2 - 1) * d2 + 1) + 1 then
          (if s1 ∣ x1 + pl1 - u ∧ s2 ∣ x2 + pl2 - v ∧ (x1 + pl1 - u) / s1 < t1 ∧
              (x2 + pl2 - v) / s2 < t2 then
            T b (c / cg * fg + n) ((x1 + pl1 - u) / s1) ((x2 + pl2 - v) / s2)
          else 0) *
          K (c / cg * fg + n) (c % cg) (u / d1) i2
        else 0)
      else 0))]
  rw [Finset.sum_congr rfl fun u _ => sum_ite_const (Finset.range k2) _]
  rw [sum_dilate hd1 hk1 (fun i1 u =>
    ∑ i2 ∈ Finset.range k2,
      (if u ≤ x1 + pl1 ∧ x1 + pl1 - u < nh + pl1 + pr1 - ((k1 - 1) * d1 + 1) + 1 ∧
          d2 * i2 ≤ x2 + pl2 ∧
          x2 + pl2 - d2 * i2 < nw + pl2 + pr2 - ((k2 - 1) * d2 + 1) + 1 then
        (if s1 ∣ x1 + pl1 - u ∧ s2 ∣ x2 + pl2 - d2 * i2 ∧ (x1 + pl1 - u) / s1 < t1 ∧
            (x2 + pl2 - d2 * i2) / s2 < t2 then
          T b (c / cg * fg + n) ((x1 + pl1 - u) / s1) ((x2 + pl2 - d2 * i2) / s2)
        else 0) *
        K (c / cg * fg + n) (c % cg) i1 i2
      else 0))]
  refine Finset.sum_congr rfl fun j1 _ => Finset.sum_congr rfl fun j2 _ => ?_
  exact ite_regroup _ _

theorem sum_reflect2 (k1 k2 : ℕ) (f : ℕ → ℕ → ℚ) :
    (∑ i1 ∈ Finset.range k1, ∑ i2 ∈ Finset.range k2, f i1 i2) =
    ∑ j1 ∈ Finset.range k1, ∑ j2 ∈ Finset.range k2,
      f (k1 - 1 - j1) (k2 - 1 - j2) := by
  calc
    (∑ i1 ∈ Finset.range k1, ∑ i2 ∈ Finset.range k2, f i1 i2) =
        ∑ i1 ∈ Finset.range k1, ∑ j2 ∈ Finset.range k2,
          f i1 (k2 - 1 - j2) :=
      Finset.sum_congr rfl fun i1 _ =>
        (Finset.sum_range_reflect (f i1) k2).symm
    _ = ∑ j1 ∈ Finset.range k1, ∑ j2 ∈ Finset.range k2,
          f (k1 - 1 - j1) (k2 - 1 - j2) :=
      (Finset.sum_range_reflect
        (fun i1 => ∑ j2 ∈ Finset.range k2, f i1 (k2 - 1 - j2)) k1).symm

theorem sum_full_dilated {d1 d2 k1 k2 : ℕ} (hd1 : 0 < d1) (hd2 : 0 < d2)
    (hk1 : 0 < k1) (hk2 : 0 < k2) (A : ℕ → ℕ → Prop)
    [inst : ∀ u v, Decidable (A u v)] (S Kf : ℕ → ℕ → ℚ) :
    (∑ u ∈ Finset.range ((k1 - 1) * d1 + 1),
      ∑ v ∈ Finset.range ((k2 - 1) * d2 + 1),
        (if A u v then
          S u v * (if d1 ∣ u ∧ d2 ∣ v then Kf (u / d1) (v / d2) else 0)
        else 0)) =
    ∑ i1 ∈ Finset.range k1, ∑ i2 ∈ Finset.range k2,
      (if A (d1 * i1) (d2 * i2) then S (d1 * i1) (d2 * i2) * Kf i1 i2
      else 0) := by
  have hre : ∀ u v,
      (if A u v then
        S u v * (if d1 ∣ u ∧ d2 ∣ v then Kf (u / d1) (v / d2) else 0)
      else 0) =
      (if d2 ∣ v then
        (if d1 ∣ u then
          (if A u v then S u v * Kf (u / d1) (v / d2) else 0)
        else 0)
      else 0) := fun u v => ite_dvd_reorder _ _
  rw [Finset.sum_congr rfl fun u _ => Finset.sum_congr rfl fun v _ => hre u v]
  rw [Finset.sum_congr rfl fun u _ =>
    sum_dilate hd2 hk2 (fun i2 v =>
      (if d1 ∣ u then
        (if A u v then S u v * Kf (u / d1) i2 else 0)
      else 0))]
  rw [Finset.sum_congr rfl fun u _ => sum_ite_const (Finset.range k2) _]
  rw [sum_dilate hd1 hk1 (fun i1 u =>
    ∑ i2 ∈ Finset.range k2,
      (if A u (d2 * i2) then S u (d2 * i2) * Kf i1 i2 else 0))]

theorem gradInputs_eq_cell_true
    {cg fg t1 t2 k1 k2 s1 s2 d1 d2 pl1 pr1 pl2 pr2 nh nw : ℕ}
    (hd1 : 0 < d1) (hd2 : 0 < d2) (hk1 : 0 < k1) (hk2 : 0 < k2)
    (hge1 : (k1 - 1) * d1 + 1 ≤ nh + pl1 + pr1)
    (hge2 : (k2 - 1) * d2 + 1 ≤ nw + pl2 + pr2)
    (K T : Arr4) (b c x1 x2 : ℕ) (hx1 : x1 < nh) (hx2 : x2 < nw) :
    gradInputs_perform pl1 pr1 pl2 pr2 nh nw s1 s2 d1 d2 cg fg k1 k2 t1 t2
      true K T b c x1 x2 =
    GIcell cg fg t1 t2 k1 k2 s1 s2 d1 d2 pl1 pl2
      (nh + pl1 + pr1 - ((k1 - 1) * d1 + 1) + 1)
      (nw + pl2 + pr2 - ((k2 - 1) * d2 + 1) + 1)
      (fun j => k1 - 1 - j) (fun j => k2 - 1 - j) K T b c x1 x2 := by
  simp only [gradInputs_perform, GIcell, conv_grouped_full, convolve2d_full,
    gradInputs_kern, dilate2, scatter2, flipSp, eq_self_iff_true, if_true]
  refine Finset.sum_congr rfl fun n _ => ?_
  have hpt : ∀ j1 j2, j1 < k1 → j2 < k2 →
      (if d1 * (k1 - 1 - j1) ≤ nh + pl1 + pr1 - 1 - (x1 + pl1) ∧
          nh + pl1 + pr1 - 1 - (x1 + pl1) - d1 * (k1 - 1 - j1) <
            nh + pl1 + pr1 - ((k1 - 1) * d1 + 1) + 1 ∧
          d2 * (k2 - 1 - j2) ≤ nw + pl2 + pr2 - 1 - (x2 + pl2) ∧
          nw + pl2 + pr2 - 1 - (x2 + pl2) - d2 * (k2 - 1 - j2) <
            nw + pl2 + pr2 - ((k2 - 1) * d2 + 1) + 1 then
        (if s1 ∣ nh + pl1 + pr1 - ((k1 - 1) * d1 + 1) + 1 - 1 -
              (nh + pl1 + pr1 - 1 - (x1 + pl1) - d1 * (k1 - 1 - j1)) ∧
            s2 ∣ nw + pl2 + pr2 - ((k2 - 1) * d2 + 1) + 1 - 1 -
              (nw + pl2 + pr2 - 1 - (x2 + pl2) - d2 * (k2 - 1 - j2)) ∧
            (nh + pl1 + pr1 - ((k1 - 1) * d1 + 1) + 1 - 1 -
              (nh + pl1 + pr1 - 1 - (x1 + pl1) - d1 * (k1 - 1 - j1))) / s1 <
              t1 ∧
            (nw + pl2 + pr2 - ((k2 - 1) * d2 + 1) + 1 - 1 -
              (nw + pl2 + pr2 - 1 - (x2 + pl2) - d2 * (k2 - 1 - j2))) / s2 <
              t2 then
          T b (c / cg * fg + n)
            ((nh + pl1 + pr1 - ((k1 - 1) * d1 + 1) + 1 - 1 -
              (nh + pl1 + pr1 - 1 - (x1 + pl1) - d1 * (k1 - 1 - j1))) / s1)
            ((nw + pl2 + pr2 - ((k2 - 1) * d2 + 1) + 1 - 1 -
              (nw + pl2 + pr2 - 1 - (x2 + pl2) - d2 * (k2 - 1 - j2))) / s2)
        else 0) *
          K (c / cg * fg + n) (c % cg) (k1 - 1 - j1) (k2 - 1 - j2)
      else 0) =
      (if d1 * j1 ≤ x1 + pl1 ∧ s1 ∣ (x1 + pl1 - d1 * j1) ∧
          (x1 + pl1 - d1 * j1) / s1 < t1 ∧
          x1 + pl1 - d1 * j1 <
            nh + pl1 + pr1 - ((k1 - 1) * d1 + 1) + 1 then
        (if d2 * j2 ≤ x2 + pl2 ∧ s2 ∣ (x2 + pl2 - d2 * j2) ∧
            (x2 + pl2 - d2 * j2) / s2 < t2 ∧
            x2 + pl2 - d2 * j2 <
              nw + pl2 + pr2 - ((k2 - 1) * d2 + 1) + 1 then
          T b (c / cg * fg + n) ((x1 + pl1 - d1 * j1) / s1)
            ((x2 + pl2 - d2 * j2) / s2) *
          K (c / cg * fg + n) (c % cg) (k1 - 1 - j1) (k2 - 1 - j2)
        else 0)
      else 0) := by
    intro j1 j2 hj1 hj2
    have e1 : d1 * (k1 - 1 - j1) = d1 * (k1 - 1) - d1 * j1 :=
      nat_mul_sub d1 (k1 - 1) j1
    have e2 : d2 * (k2 - 1 - j2) = d2 * (k2 - 1) - d2 * j2 :=
      nat_mul_sub d2 (k2 - 1) j2
    have hm1 : d1 * j1 ≤ d1 * (k1 - 1) := Nat.mul_le_mul_left d1 (by omega)
    have hm2 : d2 * j2 ≤ d2 * (k2 - 1) := Nat.mul_le_mul_left d2 (by omega)
    have hc1 : (k1 - 1) * d1 = d1 * (k1 - 1) := Nat.mul_comm _ _
    have hc2 : (k2 - 1) * d2 = d2 * (k2 - 1) := Nat.mul_comm _ _
    refine Eq.trans ?_ (ite_regroup _ _)
    by_cases hG : d1 * (k1 - 1 - j1) ≤ nh + pl1 + pr1 - 1 - (x1 + pl1) ∧
        nh + pl1 + pr1 - 1 - (x1 + pl1) - d1 * (k1 - 1 - j1) <
          nh + pl1 + pr1 - ((k1 - 1) * d1 + 1) + 1 ∧
        d2 * (k2 - 1 - j2) ≤ nw + pl2 + pr2 - 1 - (x2 + pl2) ∧
        nw + pl2 + pr2 - 1 - (x2 + pl2) - d2 * (k2 - 1 - j2) <
          nw + pl2 + pr2 - ((k2 - 1) * d2 + 1) + 1
    · have hF : d1 * j1 ≤ x1 + pl1 ∧
          x1 + pl1 - d1 * j1 <
            nh + pl1 + pr1 - ((k1 - 1) * d1 + 1) + 1 ∧
          d2 * j2 ≤ x2 + pl2 ∧
          x2 + pl2 - d2 * j2 <
            nw + pl2 + pr2 - ((k2 - 1) * d2 + 1) + 1 := by omega
      rw [if_pos hG, if_pos hF]
      have hz1 : nh + pl1 + pr1 - ((k1 - 1) * d1 + 1) + 1 - 1 -
          (nh + pl1 + pr1 - 1 - (x1 + pl1) - d1 * (k1 - 1 - j1)) =
          x1 + pl1 - d1 * j1 := by omega
      have hz2 : nw + pl2 + pr2 - ((k2 - 1) * d2 + 1) + 1 - 1 -
          (nw + pl2 + pr2 - 1 - (x2 + pl2) - d2 * (k2 - 1 - j2)) =
          x2 + pl2 - d2 * j2 := by omega
      rw [hz1, hz2]
    · have hF : ¬(d1 * j1 ≤ x1 + pl1 ∧
          x1 + pl1 - d1 * j1 <
            nh + pl1 + pr1 - ((k1 - 1) * d1 + 1) + 1 ∧
          d2 * j2 ≤ x2 + pl2 ∧
          x2 + pl2 - d2 * j2 <
            nw + pl2 + pr2 - ((k2 - 1) * d2 + 1) + 1) := by omega
      rw [if_neg hG, if_neg hF]
  refine Eq.trans (sum_full_dilated hd1 hd2 hk1 hk2
    (fun u v => u ≤ nh + pl1 + pr1 - 1 - (x1 + pl1) ∧
      nh + pl1 + pr1 - 1 - (x1 + pl1) - u <
        nh + pl1 + pr1 - ((k1 - 1) * d1 + 1) + 1 ∧
      v ≤ nw + pl2 + pr2 - 1 - (x2 + pl2) ∧
      nw + pl2 + pr2 - 1 - (x2 + pl2) - v <
        nw + pl2 + pr2 - ((k2 - 1) * d2 + 1) + 1)
    (fun u v =>
      if s1 ∣ nh + pl1 + pr1 - ((k1 - 1) * d1 + 1) + 1 - 1 -
            (nh + pl1 + pr1 - 1 - (x1 + pl1) - u) ∧
          s2 ∣ nw + pl2 + pr2 - ((k2 - 1) * d2 + 1) + 1 - 1 -
            (nw + pl2 + pr2 - 1 - (x2 + pl2) - v) ∧
          (nh + pl1 + pr1 - ((k1 - 1) * d1 + 1) + 1 - 1 -
            (nh + pl1 + pr1 - 1 - (x1 + pl1) - u)) / s1 < t1 ∧
          (nw + pl2 + pr2 - ((k2 - 1) * d2 + 1) + 1 - 1 -
            (nw + pl2 + pr2 - 1 - (x2 + pl2) - v)) / s2 < t2 then
        T b (c / cg * fg + n)
          ((nh + pl1 + pr1 - ((k1 - 1) * d1 + 1) + 1 - 1 -
            (nh + pl1 + pr1 - 1 - (x1 + pl1) - u)) / s1)
          ((nw + pl2 + pr2 - ((k2 - 1) * d2 + 1) + 1 - 1 -
            (nw + pl2 + pr2 - 1 - (x2 + pl2) - v)) / s2)
      else 0)
    (fun i1 i2 => K (c / cg * fg + n) (c % cg) i1 i2)) ?_
  refine Eq.trans (sum_reflect2 k1 k2 _) ?_
  exact Finset.sum_congr rfl fun j1 hj1 => Finset.sum_congr rfl fun j2 hj2 =>
    hpt j1 j2 (Finset.mem_range.mp hj1) (Finset.mem_range.mp hj2)

theorem gradInputs_dot_expand
    {nb ng fg cg t1 t2 k1 k2 s1 s2 d1 d2 pl1 pr1 pl2 pr2 nh nw : ℕ}
    (φ : Bool) (K T dI : Arr4)
    (hd1 : 0 < d1) (hd2 : 0 < d2) (hk1 : 0 < k1) (hk2 : 0 < k2)
    (hs1 : 0 < s1) (hs2 : 0 < s2)
    (hge1 : (k1 - 1) * d1 + 1 ≤ nh + pl1 + pr1)
    (hge2 : (k2 - 1) * d2 + 1 ≤ nw + pl2 + pr2)
    (hb1 : ∀ y, y < t1 → s1 * y < nh + pl1 + pr1 - ((k1 - 1) * d1 + 1) + 1)
    (hb2 : ∀ y, y < t2 → s2 * y < nw + pl2 + pr2 - ((k2 - 1) * d2 + 1) + 1) :
    dot4 nb (ng * cg) nh nw
      (gradInputs_perform pl1 pr1 pl2 pr2 nh nw s1 s2 d1 d2 cg fg k1 k2 t1 t2
        φ K T) dI =
    Mform nb ng fg cg t1 t2 k1 k2 s1 s2 d1 d2 pl1 pl2 nh nw T dI
      (fun g n m j1 j2 => K (g * fg + n) m (if φ then k1 - 1 - j1 else j1)
        (if φ then k2 - 1 - j2 else j2)) := by
  cases φ with
  | false =>
    exact Eq.trans
      (Finset.sum_congr rfl fun b _ => Finset.sum_congr rfl fun c _ =>
        Finset.sum_congr rfl fun x1 _ => Finset.sum_congr rfl fun x2 _ =>
          congrArg (· * dI b c x1 x2)
            (gradInputs_eq_cell_false hd1 hd2 hk1 hk2 K T b c x1 x2))
      (GIcell_dot (fun j => j) (fun j => j) K T dI hs1 hs2 hb1 hb2)
  | true =>
    exact Eq.trans
      (Finset.sum_congr rfl fun b _ => Finset.sum_congr rfl fun c _ =>
        Finset.sum_congr rfl fun x1 hx1m => Finset.sum_congr rfl fun x2 hx2m =>
          congrArg (· * dI b c x1 x2)
            (gradInputs_eq_cell_true hd1 hd2 hk1 hk2 hge1 hge2 K T b c x1 x2
              (Finset.mem_range.mp hx1m) (Finset.mem_range.mp hx2m)))
      (GIcell_dot (fun j => k1 - 1 - j) (fun j => k2 - 1 - j) K T dI hs1 hs2
        hb1 hb2)

theorem ite_and_split {A B C D : Prop} [Decidable A] [Decidable B]
    [Decidable C] [Decidable D] (x : ℚ) :
    (if A ∧ B ∧ C ∧ D then x else 0) =
    (if A ∧ C then (if B ∧ D then x else 0) else 0) := by
  by_cases hA : A <;> by_cases hB : B <;> by_cases hC : C <;>
    by_cases hD : D <;> simp [hA, hB, hC, hD]

theorem sum_scatter2d {s1 s2 t1 t2 tz1 tz2 : ℕ} (hs1 : 0 < s1) (hs2 : 0 < s2)
    (hb1 : ∀ y, y < t1 → s1 * y < tz1) (hb2 : ∀ y, y < t2 → s2 * y < tz2)
    (F : ℕ → ℕ → ℕ → ℕ → ℚ) :
    (∑ z1 ∈ Finset.range tz1, ∑ z2 ∈ Finset.range tz2,
      (if s1 ∣ z1 ∧ s2 ∣ z2 ∧ z1 / s1 < t1 ∧ z2 / s2 < t2 then
        F (z1 / s1) (z2 / s2) z1 z2
      else 0)) =
    ∑ y1 ∈ Finset.range t1, ∑ y2 ∈ Finset.range t2,
      F y1 y2 (s1 * y1) (s2 * y2) := by
  have hsp : ∀ z1 z2,
      (if s1 ∣ z1 ∧ s2 ∣ z2 ∧ z1 / s1 < t1 ∧ z2 / s2 < t2 then
        F (z1 / s1) (z2 / s2) z1 z2
      else 0) =
      (if s1 ∣ z1 ∧ z1 / s1 < t1 then
        (if s2 ∣ z2 ∧ z2 / s2 < t2 then F (z1 / s1) (z2 / s2) z1 z2 else 0)
      else 0) := fun z1 z2 => ite_and_split _
  rw [Finset.sum_congr rfl fun z1 _ => Finset.sum_congr rfl fun z2 _ =>
    hsp z1 z2]
  rw [Finset.sum_congr rfl fun z1 _ => sum_ite_const (Finset.range tz2) _]
  rw [sum_scatter hs1 hb1 (fun y1 z1 =>
    ∑ z2 ∈ Finset.range tz2,
      (if s2 ∣ z2 ∧ z2 / s2 < t2 then F y1 (z2 / s2) z1 z2 else 0))]
  exact Finset.sum_congr rfl fun y1 _ =>
    sum_scatter hs2 hb2 (fun y2 z2 => F y1 y2 (s1 * y1) z2)

theorem gradWeights_eq_cell
    {pl1 pr1 pl2 pr2 nh nw s1 s2 d1 d2 cg fg k1 k2 t1 t2 nb : ℕ}
    (hs1 : 0 < s1) (hs2 : 0 < s2)
    (hb1 : ∀ y, y < t1 → s1 * y < nh + pl1 + pr1 - ((k1 - 1) * d1 + 1) + 1)
    (hb2 : ∀ y, y < t2 → s2 * y < nw + pl2 + pr2 - ((k2 - 1) * d2 + 1) + 1)
    (φ : Bool) (I T : Arr4) (f c j1 j2 : ℕ) :
    gradWeights_perform pl1 pr1 pl2 pr2 nh nw s1 s2 d1 d2 cg fg k1 k2 t1 t2
      nb φ I T f c j1 j2 =
    ∑ b ∈ Finset.range nb, ∑ y1 ∈ Finset.range t1, ∑ y2 ∈ Finset.range t2,
      pad2 pl1 pl2 nh nw I b (f / fg * cg + c)
        (d1 * (if φ then k1 - 1 - j1 else j1) + s1 * y1)
        (d2 * (if φ then k2 - 1 - j2 else j2) + s2 * y2) *
      T b f y1 y2 := by
  simp only [gradWeights_perform, conv_grouped_valid, convolve2d_valid,
    gradWeights_img, dilate2, scatter2, Nat.div_one, Nat.one_dvd, mul_one,
    Nat.add_sub_cancel, true_and, if_true]
  refine Finset.sum_congr rfl fun m hm => ?_
  simp only [Finset.mem_range] at hm
  rw [group_mod (f / fg) hm, group_div (f / fg) hm]
  refine Eq.trans (sum_reflect2 _ _ _) ?_
  refine Eq.trans
    (Finset.sum_congr rfl fun u hu => Finset.sum_congr rfl fun v hv => ?_)
    (sum_scatter2d hs1 hs2 hb1 hb2 (fun a e z1 z2 =>
      pad2 pl1 pl2 nh nw I m (f / fg * cg + c)
        (d1 * (if φ then k1 - 1 - j1 else j1) + z1)
        (d2 * (if φ then k2 - 1 - j2 else j2) + z2) *
      T m f a e))
  simp only [Finset.mem_range] at hu hv
  have h1 : nh + pl1 + pr1 - ((k1 - 1) * d1 + 1) -
      (nh + pl1 + pr1 - ((k1 - 1) * d1 + 1) + 1 - 1 - u) = u := by omega
  have h2 : nw + pl2 + pr2 - ((k2 - 1) * d2 + 1) -
      (nw + pl2 + pr2 - ((k2 - 1) * d2 + 1) + 1 - 1 - v) = v := by omega
  rw [h1, h2]
  simp only [mul_ite, mul_zero]

theorem gradWeights_dot_expand
    {nb ng fg cg t1 t2 k1 k2 s1 s2 d1 d2 pl1 pr1 pl2 pr2 nh nw : ℕ}
    (φ : Bool) (I T dK : Arr4)
    (hs1 : 0 < s1) (hs2 : 0 < s2)
    (hb1 : ∀ y, y < t1 → s1 * y < nh + pl1 + pr1 - ((k1 - 1) * d1 + 1) + 1)
    (hb2 : ∀ y, y < t2 → s2 * y < nw + pl2 + pr2 - ((k2 - 1) * d2 + 1) + 1) :
    dot4 (ng * fg) cg k1 k2
      (gradWeights_perform pl1 pr1 pl2 pr2 nh nw s1 s2 d1 d2 cg fg k1 k2 t1
        t2 nb φ I T) dK =
    Mform nb ng fg cg t1 t2 k1 k2 s1 s2 d1 d2 pl1 pl2 nh nw T I
      (fun g n m j1 j2 => dK (g * fg + n) m (if φ then k1 - 1 - j1 else j1)
        (if φ then k2 - 1 - j2 else j2)) := by
  simp only [dot4]
  refine Eq.trans (Finset.sum_congr rfl fun f _ => Finset.sum_congr rfl
    fun c _ => Finset.sum_congr rfl fun j1 _ => Finset.sum_congr rfl
    fun j2 _ => congrArg (· * dK f c j1 j2)
      (gradWeights_eq_cell hs1 hs2 hb1 hb2 φ I T f c j1 j2)) ?_
  simp only [Finset.sum_mul]
  rw [sum_group_split ng fg]
  refine Eq.trans ((sum_rot5 (Finset.range nb) (Finset.range ng)
    (Finset.range fg) (Finset.range cg) (Finset.range k1)
    (Finset.range k2) _).symm) ?_
  simp only [Mform]
  cases φ with
  | false =>
    refine Finset.sum_congr rfl fun b _ => Finset.sum_congr rfl fun g _ =>
      Finset.sum_congr rfl fun n hn => Finset.sum_congr rfl fun m _ =>
      Finset.sum_congr rfl fun j1 _ => Finset.sum_congr rfl fun j2 _ =>
      Finset.sum_congr rfl fun y1 _ => Finset.sum_congr rfl fun y2 _ => ?_
    simp only [Finset.mem_range] at hn
    rw [group_div g hn]
    simp only [Bool.false_eq_true, if_false]
    rw [Nat.add_comm (d1 * j1) (s1 * y1), Nat.add_comm (d2 * j2) (s2 * y2)]
    ring
  | true =>
    refine Finset.sum_congr rfl fun b _ => Finset.sum_congr rfl fun g _ =>
      Finset.sum_congr rfl fun n hn => Finset.sum_congr rfl fun m _ => ?_
    refine Eq.trans (sum_reflect2 k1 k2 _) ?_
    refine Finset.sum_congr rfl fun j1 hj1 => Finset.sum_congr rfl
      fun j2 hj2 => Finset.sum_congr rfl fun y1 _ =>
      Finset.sum_congr rfl fun y2 _ => ?_
    simp only [Finset.mem_range] at hn hj1 hj2
    simp only [eq_self_iff_true, if_true]
    have h1 : k1 - 1 - (k1 - 1 - j1) = j1 := by omega
    have h2 : k2 - 1 - (k2 - 1 - j2) = j2 := by omega
    rw [group_div g hn, h1, h2, Nat.add_comm (d1 * j1) (s1 * y1),
      Nat.add_comm (d2 * j2) (s2 * y2)]
    ring

theorem scatter2_read {s1 s2 t1 t2 : ℕ} (hs1 : 0 < s1) (hs2 : 0 < s2)
    (x : Arr4) (b f y1 y2 : ℕ) (hy1 : y1 < t1) (hy2 : y2 < t2) :
    scatter2 s1 s2 t1 t2 x b f (s1 * y1) (s2 * y2) = x b f y1 y2 := by
  simp only [scatter2]
  rw [Nat.mul_div_cancel_left y1 hs1, Nat.mul_div_cancel_left y2 hs2,
    if_pos ⟨⟨y1, rfl⟩, ⟨y2, rfl⟩, hy1, hy2⟩]

theorem unshared_expand_read {s1 s2 t1 t2 : ℕ} (hs1 : 0 < s1) (hs2 : 0 < s2)
    (kern : Arr6) (f z1 z2 m u v : ℕ) (h1 : s1 ∣ z1) (h2 : s2 ∣ z2)
    (hy1 : z1 / s1 < t1) (hy2 : z2 / s2 < t2) :
    unshared_expand s1 s2 t1 t2 kern f z1 z2 m u v =
    kern f (z1 / s1) (z2 / s2) m u v := by
  simp only [unshared_expand]
  by_cases hc : 1 < s1 ∨ 1 < s2
  · rw [if_pos hc, if_pos ⟨h1, h2, hy1, hy2⟩]
  · rw [if_neg hc]
    have e1 : s1 = 1 := by omega
    have e2 : s2 = 1 := by omega
    rw [e1, e2, Nat.div_one, Nat.div_one]

theorem unshared_expand_read_lattice {s1 s2 t1 t2 : ℕ} (hs1 : 0 < s1)
    (hs2 : 0 < s2) (kern : Arr6) (f y1 y2 m u v : ℕ) (hy1 : y1 < t1)
    (hy2 : y2 < t2) :
    unshared_expand s1 s2 t1 t2 kern f (s1 * y1) (s2 * y2) m u v =
    kern f y1 y2 m u v := by
  have hy1a : s1 * y1 / s1 < t1 := by
    rw [Nat.mul_div_cancel_left y1 hs1]; exact hy1
  have hy2a : s2 * y2 / s2 < t2 := by
    rw [Nat.mul_div_cancel_left y2 hs2]; exact hy2
  rw [unshared_expand_read hs1 hs2 kern f (s1 * y1) (s2 * y2) m u v
    ⟨y1, rfl⟩ ⟨y2, rfl⟩ hy1a hy2a, Nat.mul_div_cancel_left y1 hs1,
    Nat.mul_div_cancel_left y2 hs2]

theorem conv_cell_expand_u {d1 d2 k1 k2 : ℕ} (hd1 : 0 < d1) (hd2 : 0 < d2)
    (hk1 : 0 < k1) (hk2 : 0 < k2) (Ipr : ℕ → ℕ → ℚ) (Kc : ℕ → ℕ → ℚ)
    (z1 z2 : ℕ) :
    (∑ u ∈ Finset.range ((k1 - 1) * d1 + 1),
      ∑ v ∈ Finset.range ((k2 - 1) * d2 + 1),
        Ipr (z1 + u) (z2 + v) *
          (if d1 ∣ ((k1 - 1) * d1 + 1 - 1 - u) ∧
              d2 ∣ ((k2 - 1) * d2 + 1 - 1 - v) then
            Kc (((k1 - 1) * d1 + 1 - 1 - u) / d1)
              (((k2 - 1) * d2 + 1 - 1 - v) / d2)
          else 0)) =
    ∑ j1 ∈ Finset.range k1, ∑ j2 ∈ Finset.range k2,
      Ipr (z1 + d1 * j1) (z2 + d2 * j2) * Kc (k1 - 1 - j1) (k2 - 1 - j2) := by
  have hpt : ∀ u v, u < (k1 - 1) * d1 + 1 → v < (k2 - 1) * d2 + 1 →
      (Ipr (z1 + ((k1 - 1) * d1 + 1 - 1 - u))
          (z2 + ((k2 - 1) * d2 + 1 - 1 - v)) *
        (if d1 ∣ ((k1 - 1) * d1 + 1 - 1 - ((k1 - 1) * d1 + 1 - 1 - u)) ∧
            d2 ∣ ((k2 - 1) * d2 + 1 - 1 - ((k2 - 1) * d2 + 1 - 1 - v)) then
          Kc (((k1 - 1) * d1 + 1 - 1 - ((k1 - 1) * d1 + 1 - 1 - u)) / d1)
            (((k2 - 1) * d2 + 1 - 1 - ((k2 - 1) * d2 + 1 - 1 - v)) / d2)
        else 0)) =
      Ipr (z1 + ((k1 - 1) * d1 + 1 - 1 - u))
          (z2 + ((k2 - 1) * d2 + 1 - 1 - v)) *
        (if d1 ∣ u ∧ d2 ∣ v then Kc (u / d1) (v / d2) else 0) := by
    intro u v hu hv
    have h1 : (k1 - 1) * d1 + 1 - 1 - ((k1 - 1) * d1 + 1 - 1 - u) = u := by
      omega
    have h2 : (k2 - 1) * d2 + 1 - 1 - ((k2 - 1) * d2 + 1 - 1 - v) = v := by
      omega
    rw [h1, h2]
  refine Eq.trans (sum_reflect2 _ _ _) (Eq.trans
    (Finset.sum_congr rfl fun u hu => Finset.sum_congr rfl fun v hv =>
      hpt u v (Finset.mem_range.mp hu) (Finset.mem_range.mp hv))
    (Eq.trans (conv_cell_expand hd1 hd2 hk1 hk2 Ipr Kc z1 z2)
      (cell_reflect k1 k2 d1 d2
        (fun a1 a2 i1 i2 => Ipr (z1 + a1) (z2 + a2) * Kc i1 i2))))

/-- Forward-side expansion for the unshared path: the inner product of the
top gradient with the unshared forward `perform` output equals the
position-dependent middle form. -/
theorem forward_unshared_dot_expand
    {nb ng fg cg t1 t2 k1 k2 s1 s2 d1 d2 pl1 pl2 nh nw : ℕ}
    (φ : Bool) (T X : Arr4) (K : Arr6)
    (hd1 : 0 < d1) (hd2 : 0 < d2) (hk1 : 0 < k1) (hk2 : 0 < k2)
    (hs1 : 0 < s1) (hs2 : 0 < s2) :
    dot4 nb (ng * fg) t1 t2 T
      (forward_perform_unshared pl1 pl2 nh nw s1 s2 d1 d2 cg fg t1 t2 k1 k2
        φ X K) =
    M6form nb ng fg cg t1 t2 k1 k2 s1 s2 d1 d2 pl1 pl2 nh nw T X
      (fun g n m j1 j2 y1 y2 => K (g * fg + n) y1 y2 m
        (if φ then k1 - 1 - j1 else j1) (if φ then k2 - 1 - j2 else j2)) := by
  simp only [dot4, forward_perform_unshared, subsample2, conv_unshared_forward,
    unshared2d_forward, M6form]
  have hcell : ∀ b o y1 y2, y1 < t1 → y2 < t2 →
      (∑ m ∈ Finset.range cg, ∑ u ∈ Finset.range ((k1 - 1) * d1 + 1),
        ∑ v ∈ Finset.range ((k2 - 1) * d2 + 1),
          pad2 pl1 pl2 nh nw X b (o / fg * cg + m)
            (s1 * y1 + u) (s2 * y2 + v) *
          (if d1 ∣ ((k1 - 1) * d1 + 1 - 1 - u) ∧
              d2 ∣ ((k2 - 1) * d2 + 1 - 1 - v) then
            unshared_expand s1 s2 t1 t2 (if φ then K else flip6 k1 k2 K) o
              (s1 * y1) (s2 * y2) m (((k1 - 1) * d1 + 1 - 1 - u) / d1)
              (((k2 - 1) * d2 + 1 - 1 - v) / d2)
          else 0)) =
      ∑ m ∈ Finset.range cg, ∑ j1 ∈ Finset.range k1, ∑ j2 ∈ Finset.range k2,
        pad2 pl1 pl2 nh nw X b (o / fg * cg + m)
          (s1 * y1 + d1 * j1) (s2 * y2 + d2 * j2) *
        K o y1 y2 m (if φ then k1 - 1 - j1 else j1)
          (if φ then k2 - 1 - j2 else j2) := by
    intro b o y1 y2 hy1 hy2
    refine Finset.sum_congr rfl fun m _ => ?_
    refine Eq.trans (conv_cell_expand_u hd1 hd2 hk1 hk2
      (fun a1 a2 => pad2 pl1 pl2 nh nw X b (o / fg * cg + m) a1 a2)
      (fun i1 i2 => unshared_expand s1 s2 t1 t2
        (if φ then K else flip6 k1 k2 K) o (s1 * y1) (s2 * y2) m i1 i2)
      (s1 * y1) (s2 * y2)) ?_
    refine Finset.sum_congr rfl fun j1 hj1 =>
      Finset.sum_congr rfl fun j2 hj2 => ?_
    simp only [Finset.mem_range] at hj1 hj2
    congr 1
    rw [unshared_expand_read_lattice hs1 hs2 _ o y1 y2 m _ _ hy1 hy2]
    cases φ
    · simp only [Bool.false_eq_true, if_false, flip6]
      congr 1 <;> omega
    · simp only [if_true]
  calc
    ∑ b ∈ Finset.range nb, ∑ o ∈ Finset.range (ng * fg),
      ∑ y1 ∈ Finset.range t1, ∑ y2 ∈ Finset.range t2,
        T b o y1 y2 *
        ∑ m ∈ Finset.range cg, ∑ u ∈ Finset.range ((k1 - 1) * d1 + 1),
          ∑ v ∈ Finset.range ((k2 - 1) * d2 + 1),
            pad2 pl1 pl2 nh nw X b (o / fg * cg + m)
              (s1 * y1 + u) (s2 * y2 + v) *
            (if d1 ∣ ((k1 - 1) * d1 + 1 - 1 - u) ∧
                d2 ∣ ((k2 - 1) * d2 + 1 - 1 - v) then
              unshared_expand s1 s2 t1 t2 (if φ then K else flip6 k1 k2 K) o
                (s1 * y1) (s2 * y2) m (((k1 - 1) * d1 + 1 - 1 - u) / d1)
                (((k2 - 1) * d2 + 1 - 1 - v) / d2)
            else 0) =
        ∑ b ∈ Finset.range nb, ∑ o ∈ Finset.range (ng * fg),
          ∑ y1 ∈ Finset.range t1, ∑ y2 ∈ Finset.range t2,
            ∑ m ∈ Finset.range cg, ∑ j1 ∈ Finset.range k1,
              ∑ j2 ∈ Finset.range k2,
                T b o y1 y2 *
                (pad2 pl1 pl2 nh nw X b (o / fg * cg + m)
                  (s1 * y1 + d1 * j1) (s2 * y2 + d2 * j2) *
                K o y1 y2 m (if φ then k1 - 1 - j1 else j1)
                  (if φ then k2 - 1 - j2 else j2)) := by
      refine Finset.sum_congr rfl fun b _ => Finset.sum_congr rfl fun o _ =>
        Finset.sum_congr rfl fun y1 hy1m =>
        Finset.sum_congr rfl fun y2 hy2m => ?_
      rw [hcell b o y1 y2 (Finset.mem_range.mp hy1m)
        (Finset.mem_range.mp hy2m)]
      simp only [Finset.mul_sum]
    _ = ∑ b ∈ Finset.range nb, ∑ g ∈ Finset.range ng, ∑ n ∈ Finset.range fg,
          ∑ y1 ∈ Finset.range t1, ∑ y2 ∈ Finset.range t2,
            ∑ m ∈ Finset.range cg, ∑ j1 ∈ Finset.range k1,
              ∑ j2 ∈ Finset.range k2,
                T b (g * fg + n) y1 y2 *
                (pad2 pl1 pl2 nh nw X b (g * cg + m)
                  (s1 * y1 + d1 * j1) (s2 * y2 + d2 * j2) *
                K (g * fg + n) y1 y2 m (if φ then k1 - 1 - j1 else j1)
                  (if φ then k2 - 1 - j2 else j2)) := by
      refine Finset.sum_congr rfl fun b _ => ?_
      rw [sum_group_split ng fg]
      refine Finset.sum_congr rfl fun g _ => Finset.sum_congr rfl fun n hn => ?_
      simp only [Finset.mem_range] at hn
      rw [group_div g hn]
    _ = ∑ b ∈ Finset.range nb, ∑ g ∈ Finset.range ng, ∑ n ∈ Finset.range fg,
          ∑ m ∈ Finset.range cg, ∑ j1 ∈ Finset.range k1,
            ∑ j2 ∈ Finset.range k2, ∑ y1 ∈ Finset.range t1,
              ∑ y2 ∈ Finset.range t2,
                T b (g * fg + n) y1 y2 *
                pad2 pl1 pl2 nh nw X b (g * cg + m)
                  (s1 * y1 + d1 * j1) (s2 * y2 + d2 * j2) *
                K (g * fg + n) y1 y2 m (if φ then k1 - 1 - j1 else j1)
                  (if φ then k2 - 1 - j2 else j2) := by
      refine Finset.sum_congr rfl fun b _ => Finset.sum_congr rfl fun g _ =>
        Finset.sum_congr rfl fun n _ => ?_
      rw [sum_swap_block23]
      refine Finset.sum_congr rfl fun m _ => Finset.sum_congr rfl fun j1 _ =>
        Finset.sum_congr rfl fun j2 _ => Finset.sum_congr rfl fun y1 _ =>
        Finset.sum_congr rfl fun y2 _ => ?_
      ring

theorem ite_and_pair {A1 A2 B1 B2 : Prop} [Decidable A1] [Decidable A2]
    [Decidable B1] [Decidable B2] (x : ℚ) :
    (if A1 ∧ A2 ∧ B1 ∧ B2 then x else 0) =
    (if A1 ∧ A2 then (if B1 ∧ B2 then x else 0) else 0) := by
  by_cases h1 : A1 <;> by_cases h2 : A2 <;> by_cases h3 : B1 <;>
    by_cases h4 : B2 <;> simp [h1, h2, h3, h4]

theorem sum_shift_window {q tz : ℕ} (x : ℕ) (F : ℕ → ℕ → ℚ) :
    (∑ row ∈ Finset.range tz,
      (if row ≤ x ∧ x - row < q then F row (x - row) else 0)) =
    ∑ u ∈ Finset.range q, (if u ≤ x ∧ x - u < tz then F (x - u) u else 0) := by
  rw [← Finset.sum_filter, ← Finset.sum_filter]
  refine Finset.sum_nbij' (fun row => x - row) (fun u => x - u) ?_ ?_ ?_ ?_ ?_
  · intro row hrow
    simp only [Finset.mem_filter, Finset.mem_range] at hrow ⊢
    omega
  · intro u hu
    simp only [Finset.mem_filter, Finset.mem_range] at hu ⊢
    omega
  · intro row hrow
    simp only [Finset.mem_filter, Finset.mem_range] at hrow
    show x - (x - row) = row
    omega
  · intro u hu
    simp only [Finset.mem_filter, Finset.mem_range] at hu
    show x - (x - u) = u
    omega
  · intro row hrow
    simp only [Finset.mem_filter, Finset.mem_range] at hrow
    have h : x - (x - row) = row := by omega
    show F row (x - row) = F (x - (x - row)) (x - row)
    rw [h]

theorem sum_shift_window2 {q1 q2 tz1 tz2 : ℕ} (x1 x2 : ℕ)
    (F : ℕ → ℕ → ℕ → ℕ → ℚ) :
    (∑ row ∈ Finset.range tz1, ∑ col ∈ Finset.range tz2,
      (if row ≤ x1 ∧ x1 - row < q1 ∧ col ≤ x2 ∧ x2 - col < q2 then
        F row col (x1 - row) (x2 - col)
      else 0)) =
    ∑ u ∈ Finset.range q1, ∑ v ∈ Finset.range q2,
      (if u ≤ x1 ∧ x1 - u < tz1 ∧ v ≤ x2 ∧ x2 - v < tz2 then
        F (x1 - u) (x2 - v) u v
      else 0) := by
  have hsp : ∀ row col,
      (if row ≤ x1 ∧ x1 - row < q1 ∧ col ≤ x2 ∧ x2 - col < q2 then
        F row col (x1 - row) (x2 - col)
      else 0) =
      (if row ≤ x1 ∧ x1 - row < q1 then
        (if col ≤ x2 ∧ x2 - col < q2 then F row col (x1 - row) (x2 - col)
        else 0)
      else 0) := fun row col => ite_and_pair _
  rw [Finset.sum_congr rfl fun row _ => Finset.sum_congr rfl fun col _ =>
    hsp row col]
  rw [Finset.sum_congr rfl fun row _ => sum_ite_const (Finset.range tz2) _]
  have hinner : ∀ row,
      (if row ≤ x1 ∧ x1 - row < q1 then
        (∑ col ∈ Finset.range tz2,
          (if col ≤ x2 ∧ x2 - col < q2 then F row col (x1 - row) (x2 - col)
          else 0))
      else 0) =
      (if row ≤ x1 ∧ x1 - row < q1 then
        (∑ v ∈ Finset.range q2,
          (if v ≤ x2 ∧ x2 - v < tz2 then F row (x2 - v) (x1 - row) v else 0))
      else 0) := by
    intro row
    by_cases h : row ≤ x1 ∧ x1 - row < q1
    · rw [if_pos h, if_pos h,
        sum_shift_window x2 (fun col w => F row col (x1 - row) w)]
    · rw [if_neg h, if_neg h]
  rw [Finset.sum_congr rfl fun row _ => hinner row]
  rw [Finset.sum_congr rfl fun row _ =>
    (sum_ite_const (Finset.range q2) _).symm]
  rw [Finset.sum_comm]
  rw [Finset.sum_congr rfl fun v _ => sum_shift_window x1
    (fun row w => if v ≤ x2 ∧ x2 - v < tz2 then F row (x2 - v) w v else 0)]
  rw [Finset.sum_comm]
  exact Finset.sum_congr rfl fun u _ => Finset.sum_congr rfl fun v _ =>
    (ite_and_pair _).symm

theorem sum_full_dilatedP {d1 d2 k1 k2 : ℕ} (hd1 : 0 < d1) (hd2 : 0 < d2)
    (hk1 : 0 < k1) (hk2 : 0 < k2) (A : ℕ → ℕ → Prop)
    [inst : ∀ u v, Decidable (A u v)] (S : ℕ → ℕ → ℚ)
    (Kf : ℕ → ℕ → ℕ → ℕ → ℚ) :
    (∑ u ∈ Finset.range ((k1 - 1) * d1 + 1),
      ∑ v ∈ Finset.range ((k2 - 1) * d2 + 1),
        (if A u v then
          S u v * (if d1 ∣ u ∧ d2 ∣ v then Kf (u / d1) (v / d2) u v else 0)
        else 0)) =
    ∑ i1 ∈ Finset.range k1, ∑ i2 ∈ Finset.range k2,
      (if A (d1 * i1) (d2 * i2) then
        S (d1 * i1) (d2 * i2) * Kf i1 i2 (d1 * i1) (d2 * i2)
      else 0) := by
  have hre : ∀ u v,
      (if A u v then
        S u v * (if d1 ∣ u ∧ d2 ∣ v then Kf (u / d1) (v / d2) u v else 0)
      else 0) =
      (if d2 ∣ v then
        (if d1 ∣ u then
          (if A u v then S u v * Kf (u / d1) (v / d2) u v else 0)
        else 0)
      else 0) := fun u v => ite_dvd_reorder _ _
  rw [Finset.sum_congr rfl fun u _ => Finset.sum_congr rfl fun v _ => hre u v]
  rw [Finset.sum_congr rfl fun u _ =>
    sum_dilate hd2 hk2 (fun i2 v =>
      (if d1 ∣ u then
        (if A u v then S u v * Kf (u / d1) i2 u v else 0)
      else 0))]
  rw [Finset.sum_congr rfl fun u _ => sum_ite_const (Finset.range k2) _]
  rw [sum_dilate hd1 hk1 (fun i1 u =>
    ∑ i2 ∈ Finset.range k2,
      (if A u (d2 * i2) then S u (d2 * i2) * Kf i1 i2 u (d2 * i2) else 0))]

theorem conv_unshared_bpinputs_cell
    {fg cg t1 t2 k1 k2 s1 s2 d1 d2 tz1 tz2 : ℕ}
    (hd1 : 0 < d1) (hd2 : 0 < d2) (hk1 : 0 < k1) (hk2 : 0 < k2)
    (G : Arr6) (T : Arr4) (b cc X1 X2 : ℕ) :
    conv_unshared_bpinputs fg cg d1 d2 k1 k2 tz1 tz2
      (scatter2 s1 s2 t1 t2 T) G b cc X1 X2 =
    ∑ n ∈ Finset.range fg, ∑ j1 ∈ Finset.range k1, ∑ j2 ∈ Finset.range k2,
      (if d1 * j1 ≤ X1 ∧ s1 ∣ (X1 - d1 * j1) ∧ (X1 - d1 * j1) / s1 < t1 ∧
          X1 - d1 * j1 < tz1 then
        (if d2 * j2 ≤ X2 ∧ s2 ∣ (X2 - d2 * j2) ∧ (X2 - d2 * j2) / s2 < t2 ∧
            X2 - d2 * j2 < tz2 then
          T b (cc / cg * fg + n) ((X1 - d1 * j1) / s1) ((X2 - d2 * j2) / s2) *
          G cc n (X1 - d1 * j1) (X2 - d2 * j2) (k1 - 1 - j1) (k2 - 1 - j2)
        else 0)
      else 0) := by
  simp only [conv_unshared_bpinputs, unshared2d_bpinputs]
  refine Finset.sum_congr rfl fun n _ => ?_
  refine Eq.trans (sum_shift_window2 X1 X2 (fun row col w1 w2 =>
    scatter2 s1 s2 t1 t2 T b (cc / cg * fg + n) row col *
      (if d1 ∣ ((k1 - 1) * d1 + 1 - 1 - w1) ∧
          d2 ∣ ((k2 - 1) * d2 + 1 - 1 - w2) then
        G cc n row col (((k1 - 1) * d1 + 1 - 1 - w1) / d1)
          (((k2 - 1) * d2 + 1 - 1 - w2) / d2)
      else 0))) ?_
  refine Eq.trans (sum_reflect2 _ _ _) ?_
  have hclean : ∀ u v, u < (k1 - 1) * d1 + 1 → v < (k2 - 1) * d2 + 1 →
      (if (k1 - 1) * d1 + 1 - 1 - u ≤ X1 ∧
          X1 - ((k1 - 1) * d1 + 1 - 1 - u) < tz1 ∧
          (k2 - 1) * d2 + 1 - 1 - v ≤ X2 ∧
          X2 - ((k2 - 1) * d2 + 1 - 1 - v) < tz2 then
        scatter2 s1 s2 t1 t2 T b (cc / cg * fg + n)
            (X1 - ((k1 - 1) * d1 + 1 - 1 - u))
            (X2 - ((k2 - 1) * d2 + 1 - 1 - v)) *
          (if d1 ∣ ((k1 - 1) * d1 + 1 - 1 - ((k1 - 1) * d1 + 1 - 1 - u)) ∧
              d2 ∣ ((k2 - 1) * d2 + 1 - 1 - ((k2 - 1) * d2 + 1 - 1 - v)) then
            G cc n (X1 - ((k1 - 1) * d1 + 1 - 1 - u))
              (X2 - ((k2 - 1) * d2 + 1 - 1 - v))
              (((k1 - 1) * d1 + 1 - 1 - ((k1 - 1) * d1 + 1 - 1 - u)) / d1)
              (((k2 - 1) * d2 + 1 - 1 - ((k2 - 1) * d2 + 1 - 1 - v)) / d2)
          else 0)
      else 0) =
      (if (k1 - 1) * d1 + 1 - 1 - u ≤ X1 ∧
          X1 - ((k1 - 1) * d1 + 1 - 1 - u) < tz1 ∧
          (k2 - 1) * d2 + 1 - 1 - v ≤ X2 ∧
          X2 - ((k2 - 1) * d2 + 1 - 1 - v) < tz2 then
        scatter2 s1 s2 t1 t2 T b (cc / cg * fg + n)
            (X1 - ((k1 - 1) * d1 + 1 - 1 - u))
            (X2 - ((k2 - 1) * d2 + 1 - 1 - v)) *
          (if d1 ∣ u ∧ d2 ∣ v then
            G cc n (X1 - ((k1 - 1) * d1 + 1 - 1 - u))
              (X2 - ((k2 - 1) * d2 + 1 - 1 - v)) (u / d1) (v / d2)
          else 0)
      else 0) := by
    intro u v hu hv
    have h1 : (k1 - 1) * d1 + 1 - 1 - ((k1 - 1) * d1 + 1 - 1 - u) = u := by
      omega
    have h2 : (k2 - 1) * d2 + 1 - 1 - ((k2 - 1) * d2 + 1 - 1 - v) = v := by
      omega
    rw [h1, h2]
  refine Eq.trans (Finset.sum_congr rfl fun u hu =>
    Finset.sum_congr rfl fun v hv =>
      hclean u v (Finset.mem_range.mp hu) (Finset.mem_range.mp hv)) ?_
  refine Eq.trans (sum_full_dilatedP hd1 hd2 hk1 hk2
    (fun u v => (k1 - 1) * d1 + 1 - 1 - u ≤ X1 ∧
      X1 - ((k1 - 1) * d1 + 1 - 1 - u) < tz1 ∧
      (k2 - 1) * d2 + 1 - 1 - v ≤ X2 ∧
      X2 - ((k2 - 1) * d2 + 1 - 1 - v) < tz2)
    (fun u v => scatter2 s1 s2 t1 t2 T b (cc / cg * fg + n)
      (X1 - ((k1 - 1) * d1 + 1 - 1 - u))
      (X2 - ((k2 - 1) * d2 + 1 - 1 - v)))
    (fun i1 i2 u v => G cc n (X1 - ((k1 - 1) * d1 + 1 - 1 - u))
      (X2 - ((k2 - 1) * d2 + 1 - 1 - v)) i1 i2)) ?_
  refine Eq.trans (sum_reflect2 k1 k2 _) ?_
  have hpt : ∀ j1 j2, j1 < k1 → j2 < k2 →
      (if (k1 - 1) * d1 + 1 - 1 - d1 * (k1 - 1 - j1) ≤ X1 ∧
          X1 - ((k1 - 1) * d1 + 1 - 1 - d1 * (k1 - 1 - j1)) < tz1 ∧
          (k2 - 1) * d2 + 1 - 1 - d2 * (k2 - 1 - j2) ≤ X2 ∧
          X2 - ((k2 - 1) * d2 + 1 - 1 - d2 * (k2 - 1 - j2)) < tz2 then
        scatter2 s1 s2 t1 t2 T b (cc / cg * fg + n)
            (X1 - ((k1 - 1) * d1 + 1 - 1 - d1 * (k1 - 1 - j1)))
            (X2 - ((k2 - 1) * d2 + 1 - 1 - d2 * (k2 - 1 - j2))) *
          G cc n (X1 - ((k1 - 1) * d1 + 1 - 1 - d1 * (k1 - 1 - j1)))
            (X2 - ((k2 - 1) * d2 + 1 - 1 - d2 * (k2 - 1 - j2)))
            (k1 - 1 - j1) (k2 - 1 - j2)
      else 0) =
      (if d1 * j1 ≤ X1 ∧ s1 ∣ (X1 - d1 * j1) ∧ (X1 - d1 * j1) / s1 < t1 ∧
          X1 - d1 * j1 < tz1 then
        (if d2 * j2 ≤ X2 ∧ s2 ∣ (X2 - d2 * j2) ∧ (X2 - d2 * j2) / s2 < t2 ∧
            X2 - d2 * j2 < tz2 then
          T b (cc / cg * fg + n) ((X1 - d1 * j1) / s1) ((X2 - d2 * j2) / s2) *
          G cc n (X1 - d1 * j1) (X2 - d2 * j2) (k1 - 1 - j1) (k2 - 1 - j2)
        else 0)
      else 0) := by
    intro j1 j2 hj1 hj2
    have e1 : d1 * (k1 - 1 - j1) = d1 * (k1 - 1) - d1 * j1 :=
      nat_mul_sub d1 (k1 - 1) j1
    have e2 : d2 * (k2 - 1 - j2) = d2 * (k2 - 1) - d2 * j2 :=
      nat_mul_sub d2 (k2 - 1) j2
    have hm1 : d1 * j1 ≤ d1 * (k1 - 1) := Nat.mul_le_mul_left d1 (by omega)
    have hm2 : d2 * j2 ≤ d2 * (k2 - 1) := Nat.mul_le_mul_left d2 (by omega)
    have hc1 : (k1 - 1) * d1 = d1 * (k1 - 1) := Nat.mul_comm _ _
    have hc2 : (k2 - 1) * d2 = d2 * (k2 - 1) := Nat.mul_comm _ _
    have h1 : (k1 - 1) * d1 + 1 - 1 - d1 * (k1 - 1 - j1) = d1 * j1 := by omega
    have h2 : (k2 - 1) * d2 + 1 - 1 - d2 * (k2 - 1 - j2) = d2 * j2 := by omega
    rw [h1, h2]
    simp only [scatter2]
    exact ite_regroup _ _
  exact Finset.sum_congr rfl fun j1 hj1 => Finset.sum_congr rfl fun j2 hj2 =>
    hpt j1 j2 (Finset.mem_range.mp hj1) (Finset.mem_range.mp hj2)

theorem GI6cell_dot
    {nb ng fg cg t1 t2 k1 k2 s1 s2 d1 d2 pl1 pl2 nh nw tz1 tz2 : ℕ}
    (E1 E2 : ℕ → ℕ) (K : Arr6) (T dI : Arr4) (hs1 : 0 < s1) (hs2 : 0 < s2)
    (hb1 : ∀ y, y < t1 → s1 * y < tz1) (hb2 : ∀ y, y < t2 → s2 * y < tz2) :
    (∑ b ∈ Finset.range nb, ∑ c ∈ Finset.range (ng * cg),
      ∑ x1 ∈ Finset.range nh, ∑ x2 ∈ Finset.range nw,
        GI6cell cg fg t1 t2 k1 k2 s1 s2 d1 d2 pl1 pl2 tz1 tz2 E1 E2 K T
            b c x1 x2 *
          dI b c x1 x2) =
    M6form nb ng fg cg t1 t2 k1 k2 s1 s2 d1 d2 pl1 pl2 nh nw T dI
      (fun g n m j1 j2 y1 y2 => K (g * fg + n) y1 y2 m (E1 j1) (E2 j2)) := by
  simp only [GI6cell, M6form, Finset.sum_mul, ite_mul, zero_mul]
  calc
    ∑ b ∈ Finset.range nb, ∑ c ∈ Finset.range (ng * cg),
      ∑ x1 ∈ Finset.range nh, ∑ x2 ∈ Finset.range nw,
        ∑ n ∈ Finset.range fg, ∑ j1 ∈ Finset.range k1, ∑ j2 ∈ Finset.range k2,
          (if d1 * j1 ≤ x1 + pl1 ∧ s1 ∣ (x1 + pl1 - d1 * j1) ∧
              (x1 + pl1 - d1 * j1) / s1 < t1 ∧ x1 + pl1 - d1 * j1 < tz1 then
            (if d2 * j2 ≤ x2 + pl2 ∧ s2 ∣ (x2 + pl2 - d2 * j2) ∧
                (x2 + pl2 - d2 * j2) / s2 < t2 ∧ x2 + pl2 - d2 * j2 < tz2 then
              T b (c / cg * fg + n) ((x1 + pl1 - d1 * j1) / s1)
                ((x2 + pl2 - d2 * j2) / s2) *
              K (c / cg * fg + n) ((x1 + pl1 - d1 * j1) / s1)
                ((x2 + pl2 - d2 * j2) / s2) (c % cg) (E1 j1) (E2 j2) *
              dI b c x1 x2
            else 0)
          else 0) =
        ∑ b ∈ Finset.range nb, ∑ c ∈ Finset.range (ng * cg),
          ∑ n ∈ Finset.range fg, ∑ j1 ∈ Finset.range k1,
            ∑ j2 ∈ Finset.range k2,
              ∑ y1 ∈ Finset.range t1, ∑ y2 ∈ Finset.range t2,
                T b (c / cg * fg + n) y1 y2 *
                pad2 pl1 pl2 nh nw dI b c (s1 * y1 + d1 * j1)
                  (s2 * y2 + d2 * j2) *
                K (c / cg * fg + n) y1 y2 (c % cg) (E1 j1) (E2 j2) := by
      refine Finset.sum_congr rfl fun b _ => Finset.sum_congr rfl fun c _ => ?_
      rw [sum_swap_block23]
      refine Finset.sum_congr rfl fun n _ => Finset.sum_congr rfl fun j1 _ =>
        Finset.sum_congr rfl fun j2 _ => ?_
      have hx2 : ∀ x1,
          (∑ x2 ∈ Finset.range nw,
            (if d1 * j1 ≤ x1 + pl1 ∧ s1 ∣ (x1 + pl1 - d1 * j1) ∧
                (x1 + pl1 - d1 * j1) / s1 < t1 ∧ x1 + pl1 - d1 * j1 < tz1 then
              (if d2 * j2 ≤ x2 + pl2 ∧ s2 ∣ (x2 + pl2 - d2 * j2) ∧
                  (x2 + pl2 - d2 * j2) / s2 < t2 ∧
                  x2 + pl2 - d2 * j2 < tz2 then
                T b (c / cg * fg + n) ((x1 + pl1 - d1 * j1) / s1)
                  ((x2 + pl2 - d2 * j2) / s2) *
                K (c / cg * fg + n) ((x1 + pl1 - d1 * j1) / s1)
                  ((x2 + pl2 - d2 * j2) / s2) (c % cg) (E1 j1) (E2 j2) *
                dI b c x1 x2
              else 0)
            else 0)) =
          (if d1 * j1 ≤ x1 + pl1 ∧ s1 ∣ (x1 + pl1 - d1 * j1) ∧
              (x1 + pl1 - d1 * j1) / s1 < t1 ∧ x1 + pl1 - d1 * j1 < tz1 then
            ∑ y2 ∈ Finset.range t2,
              (if pl2 ≤ s2 * y2 + d2 * j2 ∧ s2 * y2 + d2 * j2 < pl2 + nw then
                T b (c / cg * fg + n) ((x1 + pl1 - d1 * j1) / s1) y2 *
                K (c / cg * fg + n) ((x1 + pl1 - d1 * j1) / s1) y2 (c % cg)
                  (E1 j1) (E2 j2) *
                dI b c x1 (s2 * y2 + d2 * j2 - pl2)
              else 0)
          else 0) := by
        intro x1
        rw [sum_ite_const]
        by_cases hg1 : d1 * j1 ≤ x1 + pl1 ∧ s1 ∣ (x1 + pl1 - d1 * j1) ∧
            (x1 + pl1 - d1 * j1) / s1 < t1 ∧ x1 + pl1 - d1 * j1 < tz1
        · rw [if_pos hg1, if_pos hg1]
          exact sum_padbox hs2 hb2
            (fun y2 x2 =>
              T b (c / cg * fg + n) ((x1 + pl1 - d1 * j1) / s1) y2 *
              K (c / cg * fg + n) ((x1 + pl1 - d1 * j1) / s1) y2 (c % cg)
                (E1 j1) (E2 j2) *
              dI b c x1 x2)
        · rw [if_neg hg1, if_neg hg1]
      rw [Finset.sum_congr rfl fun x1 _ => hx2 x1]
      rw [sum_padbox hs1 hb1
        (fun y1 x1 => ∑ y2 ∈ Finset.range t2,
          (if pl2 ≤ s2 * y2 + d2 * j2 ∧ s2 * y2 + d2 * j2 < pl2 + nw then
            T b (c / cg * fg + n) y1 y2 *
            K (c / cg * fg + n) y1 y2 (c % cg) (E1 j1) (E2 j2) *
            dI b c x1 (s2 * y2 + d2 * j2 - pl2)
          else 0))]
      refine Finset.sum_congr rfl fun y1 _ => ?_
      rw [← sum_ite_const]
      refine Finset.sum_congr rfl fun y2 _ => ?_
      simp only [pad2]
      by_cases hp1 : pl1 ≤ s1 * y1 + d1 * j1 ∧ s1 * y1 + d1 * j1 < pl1 + nh
      · rw [if_pos hp1]
        by_cases hp2 : pl2 ≤ s2 * y2 + d2 * j2 ∧ s2 * y2 + d2 * j2 < pl2 + nw
        · rw [if_pos hp2, if_pos ⟨hp1.1, hp1.2, hp2.1, hp2.2⟩]
          ring
        · rw [if_neg hp2, if_neg (fun hcon => hp2 ⟨hcon.2.2.1, hcon.2.2.2⟩)]
          ring
      · rw [if_neg hp1, if_neg (fun hcon => hp1 ⟨hcon.1, hcon.2.1⟩)]
        ring
    _ = ∑ b ∈ Finset.range nb, ∑ g ∈ Finset.range ng, ∑ n ∈ Finset.range fg,
          ∑ m ∈ Finset.range cg, ∑ j1 ∈ Finset.range k1,
            ∑ j2 ∈ Finset.range k2, ∑ y1 ∈ Finset.range t1,
              ∑ y2 ∈ Finset.range t2,
                T b (g * fg + n) y1 y2 *
                pad2 pl1 pl2 nh nw dI b (g * cg + m) (s1 * y1 + d1 * j1)
                  (s2 * y2 + d2 * j2) *
                K (g * fg + n) y1 y2 m (E1 j1) (E2 j2) := by
      refine Finset.sum_congr rfl fun b _ => ?_
      rw [sum_group_split ng cg]
      refine Finset.sum_congr rfl fun g _ => ?_
      rw [Finset.sum_comm]
      refine Finset.sum_congr rfl fun n _ => Finset.sum_congr rfl fun m hm => ?_
      simp only [Finset.mem_range] at hm
      rw [group_div g hm, group_mod g hm]

theorem gradInputs_unshared_eq_cell
    {cg fg t1 t2 k1 k2 s1 s2 d1 d2 pl1 pr1 pl2 pr2 nh nw : ℕ}
    (hd1 : 0 < d1) (hd2 : 0 < d2) (hk1 : 0 < k1) (hk2 : 0 < k2)
    (hs1 : 0 < s1) (hs2 : 0 < s2) (φ : Bool) (K : Arr6) (T : Arr4)
    (b c x1 x2 : ℕ) :
    gradInputs_perform_unshared pl1 pr1 pl2 pr2 nh nw s1 s2 d1 d2 cg fg k1 k2
      t1 t2 φ K T b c x1 x2 =
    GI6cell cg fg t1 t2 k1 k2 s1 s2 d1 d2 pl1 pl2
      (nh + pl1 + pr1 - ((k1 - 1) * d1 + 1) + 1)
      (nw + pl2 + pr2 - ((k2 - 1) * d2 + 1) + 1)
      (fun j => if φ then k1 - 1 - j else j)
      (fun j => if φ then k2 - 1 - j else j) K T b c x1 x2 := by
  simp only [gradInputs_perform_unshared]
  refine Eq.trans (conv_unshared_bpinputs_cell hd1 hd2 hk1 hk2 _ T b c
    (x1 + pl1) (x2 + pl2)) ?_
  simp only [GI6cell]
  refine Finset.sum_congr rfl fun n _ => Finset.sum_congr rfl fun j1 hj1 =>
    Finset.sum_congr rfl fun j2 hj2 => ?_
  simp only [Finset.mem_range] at hj1 hj2
  by_cases hG1 : d1 * j1 ≤ x1 + pl1 ∧ s1 ∣ (x1 + pl1 - d1 * j1) ∧
      (x1 + pl1 - d1 * j1) / s1 < t1 ∧
      x1 + pl1 - d1 * j1 < nh + pl1 + pr1 - ((k1 - 1) * d1 + 1) + 1
  · rw [if_pos hG1, if_pos hG1]
    by_cases hG2 : d2 * j2 ≤ x2 + pl2 ∧ s2 ∣ (x2 + pl2 - d2 * j2) ∧
        (x2 + pl2 - d2 * j2) / s2 < t2 ∧
        x2 + pl2 - d2 * j2 < nw + pl2 + pr2 - ((k2 - 1) * d2 + 1) + 1
    · rw [if_pos hG2, if_pos hG2]
      congr 1
      cases φ with
      | false =>
        simp only [Bool.false_eq_true, if_false, flip6]
        have h1 : k1 - 1 - (k1 - 1 - j1) = j1 := by omega
        have h2 : k2 - 1 - (k2 - 1 - j2) = j2 := by omega
        rw [h1, h2, unshared_expand_read hs1 hs2 K _ _ _ _ _ _
          hG1.2.1 hG2.2.1 hG1.2.2.1 hG2.2.2.1]
      | true =>
        simp only [if_true]
        rw [unshared_expand_read hs1 hs2 K _ _ _ _ _ _
          hG1.2.1 hG2.2.1 hG1.2.2.1 hG2.2.2.1]
    · rw [if_neg hG2, if_neg hG2]
  · rw [if_neg hG1, if_neg hG1]

theorem gradInputs_unshared_dot_expand
    {nb ng fg cg t1 t2 k1 k2 s1 s2 d1 d2 pl1 pr1 pl2 pr2 nh nw : ℕ}
    (φ : Bool) (K : Arr6) (T dI : Arr4)
    (hd1 : 0 < d1) (hd2 : 0 < d2) (hk1 : 0 < k1) (hk2 : 0 < k2)
    (hs1 : 0 < s1) (hs2 : 0 < s2)
    (hb1 : ∀ y, y < t1 → s1 * y < nh + pl1 + pr1 - ((k1 - 1) * d1 + 1) + 1)
    (hb2 : ∀ y, y < t2 → s2 * y < nw + pl2 + pr2 - ((k2 - 1) * d2 + 1) + 1) :
    dot4 nb (ng * cg) nh nw
      (gradInputs_perform_unshared pl1 pr1 pl2 pr2 nh nw s1 s2 d1 d2 cg fg
        k1 k2 t1 t2 φ K T) dI =
    M6form nb ng fg cg t1 t2 k1 k2 s1 s2 d1 d2 pl1 pl2 nh nw T dI
      (fun g n m j1 j2 y1 y2 => K (g * fg + n) y1 y2 m
        (if φ then k1 - 1 - j1 else j1) (if φ then k2 - 1 - j2 else j2)) := by
  exact Eq.trans
    (Finset.sum_congr rfl fun b _ => Finset.sum_congr rfl fun c _ =>
      Finset.sum_congr rfl fun x1 _ => Finset.sum_congr rfl fun x2 _ =>
        congrArg (· * dI b c x1 x2)
          (gradInputs_unshared_eq_cell hd1 hd2 hk1 hk2 hs1 hs2 φ K T
            b c x1 x2))
    (GI6cell_dot (fun j => if φ then k1 - 1 - j else j)
      (fun j => if φ then k2 - 1 - j else j) K T dI hs1 hs2 hb1 hb2)

theorem sum_rot6 (sa sb sc sd se sf sg : Finset ℕ)
    (f : ℕ → ℕ → ℕ → ℕ → ℕ → ℕ → ℕ → ℚ) :
    (∑ a ∈ sa, ∑ b ∈ sb, ∑ c ∈ sc, ∑ d ∈ sd, ∑ e ∈ se, ∑ x ∈ sf, ∑ y ∈ sg,
      f a b c d e x y) =
    ∑ b ∈ sb, ∑ c ∈ sc, ∑ d ∈ sd, ∑ e ∈ se, ∑ x ∈ sf, ∑ y ∈ sg, ∑ a ∈ sa,
      f a b c d e x y := by
  rw [Finset.sum_comm]
  exact Finset.sum_congr rfl fun b _ => sum_rot5 _ _ _ _ _ _ _

theorem sum_rot7 (sa sb sc sd se sf sg sh : Finset ℕ)
    (f : ℕ → ℕ → ℕ → ℕ → ℕ → ℕ → ℕ → ℕ → ℚ) :
    (∑ a ∈ sa, ∑ b ∈ sb, ∑ c ∈ sc, ∑ d ∈ sd, ∑ e ∈ se, ∑ x ∈ sf, ∑ y ∈ sg,
      ∑ z ∈ sh, f a b c d e x y z) =
    ∑ b ∈ sb, ∑ c ∈ sc, ∑ d ∈ sd, ∑ e ∈ se, ∑ x ∈ sf, ∑ y ∈ sg, ∑ z ∈ sh,
      ∑ a ∈ sa, f a b c d e x y z := by
  rw [Finset.sum_comm]
  exact Finset.sum_congr rfl fun b _ => sum_rot6 _ _ _ _ _ _ _ _

theorem gradWeights_unshared_eq_cell
    {pl1 pr1 pl2 pr2 nh nw s1 s2 d1 d2 cg fg k1 k2 t1 t2 nb : ℕ}
    (hs1 : 0 < s1) (hs2 : 0 < s2) (φ : Bool) (I T : Arr4)
    (f r c m j1 j2 : ℕ) (hr : r < t1) (hc : c < t2) :
    gradWeights_perform_unshared pl1 pr1 pl2 pr2 nh nw s1 s2 d1 d2 cg fg k1 k2
      t1 t2 nb φ I T f r c m j1 j2 =
    ∑ b ∈ Finset.range nb,
      T b f r c *
      pad2 pl1 pl2 nh nw I b (f / fg * cg + m)
        (s1 * r + d1 * (if φ then k1 - 1 - j1 else j1))
        (s2 * c + d2 * (if φ then k2 - 1 - j2 else j2)) := by
  simp only [gradWeights_perform_unshared, conv_unshared_bpweights,
    unshared2d_bpweights, gradWeights_img, dilate2, Nat.one_dvd, Nat.div_one,
    true_and, if_true]
  refine Finset.sum_congr rfl fun mb hmb => ?_
  simp only [Finset.mem_range] at hmb
  rw [group_mod (f / fg) hmb, group_div (f / fg) hmb,
    scatter2_read hs1 hs2 T mb f r c hr hc]

theorem gradWeights_unshared_dot_expand
    {nb ng fg cg t1 t2 k1 k2 s1 s2 d1 d2 pl1 pr1 pl2 pr2 nh nw : ℕ}
    (φ : Bool) (I T : Arr4) (dK : Arr6)
    (hs1 : 0 < s1) (hs2 : 0 < s2) :
    dot6 (ng * fg) t1 t2 cg k1 k2
      (gradWeights_perform_unshared pl1 pr1 pl2 pr2 nh nw s1 s2 d1 d2 cg fg
        k1 k2 t1 t2 nb φ I T) dK =
    M6form nb ng fg cg t1 t2 k1 k2 s1 s2 d1 d2 pl1 pl2 nh nw T I
      (fun g n m j1 j2 y1 y2 => dK (g * fg + n) y1 y2 m
        (if φ then k1 - 1 - j1 else j1) (if φ then k2 - 1 - j2 else j2)) := by
  simp only [dot6]
  refine Eq.trans (Finset.sum_congr rfl fun f _ => Finset.sum_congr rfl
    fun r hrm => Finset.sum_congr rfl fun c hcm => Finset.sum_congr rfl
    fun m _ => Finset.sum_congr rfl fun j1 _ => Finset.sum_congr rfl
    fun j2 _ => congrArg (· * dK f r c m j1 j2)
      (gradWeights_unshared_eq_cell hs1 hs2 φ I T f r c m j1 j2
        (Finset.mem_range.mp hrm) (Finset.mem_range.mp hcm))) ?_
  simp only [Finset.sum_mul]
  rw [sum_group_split ng fg]
  refine Eq.trans ((sum_rot7 (Finset.range nb) (Finset.range ng)
    (Finset.range fg) (Finset.range t1) (Finset.range t2) (Finset.range cg)
    (Finset.range k1) (Finset.range k2) _).symm) ?_
  simp only [M6form]
  refine Finset.sum_congr rfl fun b _ => Finset.sum_congr rfl fun g _ =>
    Finset.sum_congr rfl fun n hn => ?_
  rw [sum_swap_block23]
  simp only [Finset.mem_range] at hn
  cases φ with
  | false =>
    refine Finset.sum_congr rfl fun m _ => Finset.sum_congr rfl fun j1 _ =>
      Finset.sum_congr rfl fun j2 _ => Finset.sum_congr rfl fun y1 _ =>
      Finset.sum_congr rfl fun y2 _ => ?_
    rw [group_div g hn]
    simp only [Bool.false_eq_true, if_false]
  | true =>
    refine Finset.sum_congr rfl fun m _ => ?_
    refine Eq.trans (sum_reflect2 k1 k2 _) ?_
    refine Finset.sum_congr rfl fun j1 hj1 => Finset.sum_congr rfl
      fun j2 hj2 => Finset.sum_congr rfl fun y1 _ =>
      Finset.sum_congr rfl fun y2 _ => ?_
    simp only [Finset.mem_range] at hj1 hj2
    simp only [eq_self_iff_true, if_true]
    have h1 : k1 - 1 - (k1 - 1 - j1) = j1 := by omega
    have h2 : k2 - 1 - (k2 - 1 - j2) = j2 := by omega
    rw [group_div g hn, h1, h2]

/-- C1: for the 2D operator family, in both the shared-weights and the
unshared (per-output-position kernel) paths, over every border mode
(arbitrary non-negative resolved pads `pl, pr` per axis), every positive
subsample, filter dilation, kernel size, every group count and both
`filter_flip` settings, and for all concrete arrays of matching shapes
(`t` the forward output size), the two gradients built by
`AbstractConv2d.grad` are the true adjoints of the forward perform under
exact arithmetic: the inner product of the output gradient `T` with
`Forward(dI, K)` equals the inner product of `GradInputs(K, T)` with `dI`,
and the inner product of `T` with `Forward(I, dK)` equals the inner
product of `GradWeights(I, T)` with `dK`, for the rank-4 shared kernels
`K, dK` and likewise for the rank-6 unshared kernels `K6, dK6`. -/
theorem conv2d_grad_adjoint
    {nb ng fg cg t1 t2 k1 k2 s1 s2 d1 d2 pl1 pr1 pl2 pr2 nh nw : ℕ}
    (φ : Bool) (I K T dI dK : Arr4) (K6 dK6 : Arr6)
    (hd1 : 0 < d1) (hd2 : 0 < d2) (hk1 : 0 < k1) (hk2 : 0 < k2)
    (hs1 : 0 < s1) (hs2 : 0 < s2)
    (hge1 : (k1 - 1) * d1 + 1 ≤ nh + pl1 + pr1)
    (hge2 : (k2 - 1) * d2 + 1 ≤ nw + pl2 + pr2)
    (ht1 : t1 = (nh + pl1 + pr1 - ((k1 - 1) * d1 + 1)) / s1 + 1)
    (ht2 : t2 = (nw + pl2 + pr2 - ((k2 - 1) * d2 + 1)) / s2 + 1) :
    (dot4 nb (ng * fg) t1 t2 T
        (forward_perform pl1 pl2 nh nw s1 s2 d1 d2 cg fg k1 k2 φ dI K) =
      dot4 nb (ng * cg) nh nw
        (gradInputs_perform pl1 pr1 pl2 pr2 nh nw s1 s2 d1 d2 cg fg k1 k2 t1
          t2 φ K T) dI ∧
    dot4 nb (ng * fg) t1 t2 T
        (forward_perform pl1 pl2 nh nw s1 s2 d1 d2 cg fg k1 k2 φ I dK) =
      dot4 (ng * fg) cg k1 k2
        (gradWeights_perform pl1 pr1 pl2 pr2 nh nw s1 s2 d1 d2 cg fg k1 k2 t1
          t2 nb φ I T) dK) ∧
    (dot4 nb (ng * fg) t1 t2 T
        (forward_perform_unshared pl1 pl2 nh nw s1 s2 d1 d2 cg fg t1 t2 k1 k2
          φ dI K6) =
      dot4 nb (ng * cg) nh nw
        (gradInputs_perform_unshared pl1 pr1 pl2 pr2 nh nw s1 s2 d1 d2 cg fg
          k1 k2 t1 t2 φ K6 T) dI ∧
    dot4 nb (ng * fg) t1 t2 T
        (forward_perform_unshared pl1 pl2 nh nw s1 s2 d1 d2 cg fg t1 t2 k1 k2
          φ I dK6) =
      dot6 (ng * fg) t1 t2 cg k1 k2
        (gradWeights_perform_unshared pl1 pr1 pl2 pr2 nh nw s1 s2 d1 d2 cg fg
          k1 k2 t1 t2 nb φ I T) dK6) := by
  have hb1 : ∀ y, y < t1 →
      s1 * y < nh + pl1 + pr1 - ((k1 - 1) * d1 + 1) + 1 := by
    intro y hy
    have h1 : y ≤ (nh + pl1 + pr1 - ((k1 - 1) * d1 + 1)) / s1 := by omega
    have h2 : s1 * y ≤ s1 * ((nh + pl1 + pr1 - ((k1 - 1) * d1 + 1)) / s1) :=
      Nat.mul_le_mul_left s1 h1
    have h3 : (nh + pl1 + pr1 - ((k1 - 1) * d1 + 1)) / s1 * s1 ≤
        nh + pl1 + pr1 - ((k1 - 1) * d1 + 1) :=
      Nat.div_mul_le_self _ s1
    have h4 : s1 * ((nh + pl1 + pr1 - ((k1 - 1) * d1 + 1)) / s1) =
        (nh + pl1 + pr1 - ((k1 - 1) * d1 + 1)) / s1 * s1 := Nat.mul_comm _ _
    omega
  have hb2 : ∀ y, y < t2 →
      s2 * y < nw + pl2 + pr2 - ((k2 - 1) * d2 + 1) + 1 := by
    intro y hy
    have h1 : y ≤ (nw + pl2 + pr2 - ((k2 - 1) * d2 + 1)) / s2 := by omega
    have h2 : s2 * y ≤ s2 * ((nw + pl2 + pr2 - ((k2 - 1) * d2 + 1)) / s2) :=
      Nat.mul_le_mul_left s2 h1
    have h3 : (nw + pl2 + pr2 - ((k2 - 1) * d2 + 1)) / s2 * s2 ≤
        nw + pl2 + pr2 - ((k2 - 1) * d2 + 1) :=
      Nat.div_mul_le_self _ s2
    have h4 : s2 * ((nw + pl2 + pr2 - ((k2 - 1) * d2 + 1)) / s2) =
        (nw + pl2 + pr2 - ((k2 - 1) * d2 + 1)) / s2 * s2 := Nat.mul_comm _ _
    omega
  exact ⟨⟨(forward_dot_expand φ T dI K hd1 hd2 hk1 hk2).trans
      (gradInputs_dot_expand φ K T dI hd1 hd2 hk1 hk2 hs1 hs2 hge1 hge2
        hb1 hb2).symm,
    (forward_dot_expand φ T I dK hd1 hd2 hk1 hk2).trans
      (gradWeights_dot_expand φ I T dK hs1 hs2 hb1 hb2).symm⟩,
    ⟨(forward_unshared_dot_expand φ T dI K6 hd1 hd2 hk1 hk2 hs1 hs2).trans
      (gradInputs_unshared_dot_expand φ K6 T dI hd1 hd2 hk1 hk2 hs1 hs2
        hb1 hb2).symm,
    (forward_unshared_dot_expand φ T I dK6 hd1 hd2 hk1 hk2 hs1 hs2).trans
      (gradWeights_unshared_dot_expand φ I T dK6 hs1 hs2).symm⟩⟩

/-- Closed witness for the adjointness theorem: a concrete 1-batch, 1-group,
1-channel, 1x1-kernel, unit-stride instance with all-ones arrays, with every
hypothesis discharged by computation. -/
theorem conv2d_grad_adjoint_witness :
    0 < (1 : ℕ) ∧
    ((dot4 1 (1 * 1) 1 1 (fun _ _ _ _ => (1 : ℚ))
        (forward_perform 0 0 1 1 1 1 1 1 1 1 1 1 false
          (fun _ _ _ _ => (1 : ℚ)) (fun _ _ _ _ => (1 : ℚ))) =
      dot4 1 (1 * 1) 1 1
        (gradInputs_perform 0 0 0 0 1 1 1 1 1 1 1 1 1 1 1 1 false
          (fun _ _ _ _ => (1 : ℚ)) (fun _ _ _ _ => (1 : ℚ)))
        (fun _ _ _ _ => (1 : ℚ)) ∧
    dot4 1 (1 * 1) 1 1 (fun _ _ _ _ => (1 : ℚ))
        (forward_perform 0 0 1 1 1 1 1 1 1 1 1 1 false
          (fun _ _ _ _ => (1 : ℚ)) (fun _ _ _ _ => (1 : ℚ))) =
      dot4 (1 * 1) 1 1 1
        (gradWeights_perform 0 0 0 0 1 1 1 1 1 1 1 1 1 1 1 1 1 false
          (fun _ _ _ _ => (1 : ℚ)) (fun _ _ _ _ => (1 : ℚ)))
        (fun _ _ _ _ => (1 : ℚ))) ∧
    (dot4 1 (1 * 1) 1 1 (fun _ _ _ _ => (1 : ℚ))
        (forward_perform_unshared 0 0 1 1 1 1 1 1 1 1 1 1 1 1 false
          (fun _ _ _ _ => (1 : ℚ)) (fun _ _ _ _ _ _ => (1 : ℚ))) =
      dot4 1 (1 * 1) 1 1
        (gradInputs_perform_unshared 0 0 0 0 1 1 1 1 1 1 1 1 1 1 1 1 false
          (fun _ _ _ _ _ _ => (1 : ℚ)) (fun _ _ _ _ => (1 : ℚ)))
        (fun _ _ _ _ => (1 : ℚ)) ∧
    dot4 1 (1 * 1) 1 1 (fun _ _ _ _ => (1 : ℚ))
        (forward_perform_unshared 0 0 1 1 1 1 1 1 1 1 1 1 1 1 false
          (fun _ _ _ _ => (1 : ℚ)) (fun _ _ _ _ _ _ => (1 : ℚ))) =
      dot6 (1 * 1) 1 1 1 1 1
        (gradWeights_perform_unshared 0 0 0 0 1 1 1 1 1 1 1 1 1 1 1 1 1 false
          (fun _ _ _ _ => (1 : ℚ)) (fun _ _ _ _ => (1 : ℚ)))
        (fun _ _ _ _ _ _ => (1 : ℚ)))) :=
  ⟨Nat.one_pos,
    @conv2d_grad_adjoint 1 1 1 1 1 1 1 1 1 1 1 1 0 0 0 0 1 1 false
      (fun _ _ _ _ => (1 : ℚ)) (fun _ _ _ _ => (1 : ℚ))
      (fun _ _ _ _ => (1 : ℚ)) (fun _ _ _ _ => (1 : ℚ))
      (fun _ _ _ _ => (1 : ℚ)) (fun _ _ _ _ _ _ => (1 : ℚ))
      (fun _ _ _ _ _ _ => (1 : ℚ))
      (by decide) (by decide) (by decide) (by decide) (by decide) (by decide)
      (by decide) (by decide) (by decide) (by decide)⟩

end PyTensorConv
